import Mathlib

/-!
# gocbcorex: synchronous call bridge, agent topology update, search options

A shallow embedding of

* `kvclient_ops.go`  — `kvClient_SimpleCall` and the pooled completion channel,
* `agent.go`         — `Agent.updateStateLocked` and the topology-change callback,
* `cbsearchx/*.go`   — `HttpSearch.Search`, `SearchOptions.toMap`, `InvalidArgumentError`.

Go maps are association lists with unique keys, Go slices are lists, a Go
pointer or map that the code compares with `nil` is an `Option`.
-/

namespace Gocbcorex

/-! ## Go maps -/

/-- A Go `map[string]V`: an association list that `GoMap.set` keeps free of repeated keys. -/
abbrev GoMap (V : Type) := List (String × V)

/-- The Go expression `m[k]` (the two-valued form): the value stored under `k`, if any. -/
def GoMap.get {V : Type} : GoMap V → String → Option V
  | [], _ => none
  | (k', v) :: rest, k => if k' = k then some v else GoMap.get rest k

/-- The Go statement `m[k] = v`: overwrite the entry under `k`, or add one. -/
def GoMap.set {V : Type} : GoMap V → String → V → GoMap V
  | [], k, v => [(k, v)]
  | (k', v') :: rest, k, v => if k' = k then (k, v) :: rest else (k', v') :: GoMap.set rest k v

/-- The keys of a Go map. -/
def GoMap.keys {V : Type} (m : GoMap V) : List String := m.map Prod.fst

/-! ## kvclient_ops.go -/

/-- The Go struct `KvClientDispatchError`. -/
structure KvClientDispatchError (E : Type) where
  Cause : E
deriving DecidableEq, Repr

/-- The Go method `KvClientDispatchError.Unwrap`. -/
def KvClientDispatchError.Unwrap {E : Type} (e : KvClientDispatchError E) : E := e.Cause

/-- The `error` values `kvClient_SimpleCall` returns: either a `KvClientDispatchError`
built at line 65, or an error handed through unchanged (`res.Err`, `ctx.Err()`). -/
inductive CallError (E : Type) where
  | dispatch (e : KvClientDispatchError E)
  | passed (e : E)
deriving DecidableEq, Repr

/-- The Go struct `syncCrudResult`; `Err = none` is the nil error. -/
structure syncCrudResult (Resp E : Type) where
  Result : Resp
  Err : Option E
deriving DecidableEq, Repr

/-- The Go struct `syncCrudResulter`. Its channel `Ch` has capacity 1 (line 38): `buf` is
what the channel buffers, `parked` the sends blocked on the full buffer, oldest first. -/
structure syncCrudResulter (Resp E : Type) where
  buf : List (syncCrudResult Resp E)
  parked : List (syncCrudResult Resp E)
deriving DecidableEq, Repr

/-- The resulter `allocSyncCrudResulter` builds when the pool is empty:
`make(chan syncCrudResult, 1)`. -/
def freshResulter (Resp E : Type) : syncCrudResulter Resp E := ⟨[], []⟩

/-- The Go call `syncCrudResulterPool.Get()` of `sync.Pool`: the pool may answer nil
(`pick = none`, also when it holds items) or hand out any one of the items it holds
(`pick = some i`, the item at position `i`), which leaves the pool. -/
def poolGet {Resp E : Type} (pool : List (syncCrudResulter Resp E)) (pick : Option Nat) :
    Option (syncCrudResulter Resp E) × List (syncCrudResulter Resp E) :=
  match pick with
  | none => (none, pool)
  | some i =>
    match pool[i]? with
    | some v => (some v, pool.eraseIdx i)
    | none => (none, pool)

/-- The Go function `allocSyncCrudResulter` over `syncCrudResulterPool`: the pooled
resulter when `Get` hands one out, a new one with a capacity-1 channel when it answers
nil. Returns the resulter and the pool left. -/
def allocSyncCrudResulter {Resp E : Type} (pool : List (syncCrudResulter Resp E))
    (pick : Option Nat) : syncCrudResulter Resp E × List (syncCrudResulter Resp E) :=
  match poolGet pool pick with
  | (none, rest) => (freshResulter Resp E, rest)
  | (some v, rest) => (v, rest)

/-- The Go function `releaseSyncCrudResulter`: `syncCrudResulterPool.Put(v)`. -/
def releaseSyncCrudResulter {Resp E : Type} (pool : List (syncCrudResulter Resp E))
    (v : syncCrudResulter Resp E) : List (syncCrudResulter Resp E) :=
  v :: pool

/-- A send `Ch <- r` on the capacity-1 channel: buffered when there is room, parked
otherwise. -/
def syncCrudResulter.send {Resp E : Type} (c : syncCrudResulter Resp E)
    (r : syncCrudResult Resp E) : syncCrudResulter Resp E :=
  if c.buf.length < 1 then { c with buf := c.buf ++ [r] } else { c with parked := c.parked ++ [r] }

/-- A receive `<-Ch`: `none` when it would block; otherwise the oldest buffered value,
and the oldest parked send moves into the buffer. -/
def syncCrudResulter.recv {Resp E : Type} (c : syncCrudResulter Resp E) :
    Option (syncCrudResult Resp E × syncCrudResulter Resp E) :=
  match c.buf with
  | [] => none
  | r :: rest =>
    match c.parked with
    | [] => some (r, { c with buf := rest })
    | p :: ps => some (r, { buf := rest ++ [p], parked := ps })

/-- Where the goroutine running `kvClient_SimpleCall` stands. -/
inductive CallPc (Resp E : Type) where
  /-- Lines 54-61: the resulter is allocated, `execFn` has not returned yet. -/
  | dispatching
  /-- Line 68: blocked in the `select`. -/
  | selecting
  /-- Line 73: the `ctx.Done()` case was taken; `pendingOp.Cancel()` is being called. -/
  | cancelling
  /-- Line 74: `Cancel()` returned false; blocked in `<-resulter.Ch`. -/
  | draining
  /-- Lines 65, 71, 78: the call has returned `(resp, err)`. -/
  | returned (resp : Resp) (err : Option (CallError E))
deriving DecidableEq, Repr

/-- One call of `kvClient_SimpleCall` together with the channel of its resulter. -/
structure CallState (Resp E : Type) where
  pc : CallPc Resp E
  /-- The channel `resulter.Ch`. -/
  chan : syncCrudResulter Resp E
  /-- The value of `ctx.Err()`: `none` until `ctx.Done()` is closed. -/
  ctxErr : Option E
  /-- How often the call has invoked `pendingOp.Cancel()`. -/
  cancelCalls : Nat
  /-- How many receives on `resulter.Ch` the call has completed. -/
  chanRecvs : Nat
  /-- The resulter as it was when handed to `releaseSyncCrudResulter`. -/
  released : Option (syncCrudResulter Resp E)
deriving DecidableEq, Repr

/-- What happens next: a step of the call's own goroutine whose outcome the surroundings
decide, or a step of the surroundings. -/
inductive CallEvent (Resp E : Type) where
  /-- Line 56: `execFn` returns `(pendingOp, nil)` (`none`) or `(nil, err)`. -/
  | execReturns (err : Option E)
  /-- Lines 56-61: the wire codec invokes the callback, which sends on `resulter.Ch`. -/
  | callback (resp : Resp) (err : Option E)
  /-- The caller's context is cancelled or its deadline passes; `ctx.Err()` is `e` from here on. -/
  | ctxDone (e : E)
  /-- Lines 69 and 74: a receive on `resulter.Ch` completes. -/
  | recv
  /-- Line 72: the `select` takes the `ctx.Done()` case. -/
  | selectDone
  /-- Line 73: `pendingOp.Cancel()` returns `b`. -/
  | cancelReturns (b : Bool)
deriving DecidableEq, Repr

/-- The state at line 54, with the resulter `allocSyncCrudResulter` handed out. -/
def callEntry {Resp E : Type} (resulter : syncCrudResulter Resp E) : CallState Resp E :=
  { pc := .dispatching, chan := resulter, ctxErr := none, cancelCalls := 0, chanRecvs := 0,
    released := none }

/-- Lines 63, 70, 76: `releaseSyncCrudResulter(resulter)` followed by the `return`. -/
def CallState.releaseAndReturn {Resp E : Type} (s : CallState Resp E) (resp : Resp)
    (err : Option (CallError E)) : CallState Resp E :=
  { s with released := some s.chan, pc := .returned resp err }

/-- The Go function `kvClient_SimpleCall`, one event at a time. `emptyResp` is the zero
value of `RespT`. `none` means the event cannot happen in this state. -/
def kvClient_SimpleCall_step {Resp E : Type} (emptyResp : Resp) (s : CallState Resp E) :
    CallEvent Resp E → Option (CallState Resp E)
  | .callback resp err => some { s with chan := s.chan.send ⟨resp, err⟩ }
  | .ctxDone e =>
    match s.ctxErr with
    | none => some { s with ctxErr := some e }
    | some _ => none
  | .execReturns r =>
    match s.pc with
    | .dispatching =>
      match r with
      | some err => some (s.releaseAndReturn emptyResp (some (.dispatch ⟨err⟩)))
      | none => some { s with pc := .selecting }
    | _ => none
  | .recv =>
    match s.pc with
    | .selecting =>
      match s.chan.recv with
      | some (res, c) =>
        some ({ s with chan := c, chanRecvs := s.chanRecvs + 1 }.releaseAndReturn
          res.Result (res.Err.map .passed))
      | none => none
    | .draining =>
      match s.chan.recv with
      | some (_, c) =>
        some ({ s with chan := c, chanRecvs := s.chanRecvs + 1 }.releaseAndReturn
          emptyResp (s.ctxErr.map .passed))
      | none => none
    | _ => none
  | .selectDone =>
    match s.pc, s.ctxErr with
    | .selecting, some _ => some { s with pc := .cancelling }
    | _, _ => none
  | .cancelReturns b =>
    match s.pc with
    | .cancelling =>
      if b then
        some ({ s with cancelCalls := s.cancelCalls + 1 }.releaseAndReturn
          emptyResp (s.ctxErr.map .passed))
      else
        some { s with cancelCalls := s.cancelCalls + 1, pc := .draining }
    | _ => none

/-- Run a schedule of events from a state; `none` when the schedule is not one the code
and its surroundings can produce. -/
def kvClient_SimpleCall_run {Resp E : Type} (emptyResp : Resp) :
    CallState Resp E → List (CallEvent Resp E) → Option (CallState Resp E)
  | s, [] => some s
  | s, e :: es =>
    match kvClient_SimpleCall_step emptyResp s e with
    | some s' => kvClient_SimpleCall_run emptyResp s' es
    | none => none

/-- The Go function `kvClient_SimpleCall` as a whole: what the call returns under a
schedule, `none` while it has not returned (or for an impossible schedule). -/
def kvClient_SimpleCall {Resp E : Type} (emptyResp : Resp) (resulter : syncCrudResulter Resp E)
    (evs : List (CallEvent Resp E)) : Option (Resp × Option (CallError E)) :=
  match kvClient_SimpleCall_run emptyResp (callEntry resulter) evs with
  | some s =>
    match s.pc with
    | .returned resp err => some (resp, err)
    | _ => none
  | none => none

/-- The call has returned. -/
def CallState.isReturned {Resp E : Type} (s : CallState Resp E) : Bool :=
  match s.pc with
  | .returned _ _ => true
  | _ => false

/-- The event is an invocation of the completion callback. -/
def CallEvent.isCallback {Resp E : Type} : CallEvent Resp E → Bool
  | .callback _ _ => true
  | _ => false

/-- How often the completion callback fires in a schedule. -/
def callbacksFired {Resp E : Type} (evs : List (CallEvent Resp E)) : Nat :=
  evs.countP CallEvent.isCallback

/-- In the schedule `execFn` returns an error. -/
def execFailed {Resp E : Type} (evs : List (CallEvent Resp E)) : Bool :=
  evs.any (fun ev => match ev with
    | .execReturns (some _) => true
    | _ => false)

/-- In the schedule `pendingOp.Cancel()` returns `b`. -/
def cancelReturned {Resp E : Type} (b : Bool) (evs : List (CallEvent Resp E)) : Bool :=
  evs.any (fun ev => match ev with
    | .cancelReturns b' => b' == b
    | _ => false)

/-- The wire-codec contract for one call, over the complete schedule of the call and
its callback: the completion callback sends at most once; it does not fire when
`execFn` returns an error; when `Cancel()` returned true it does not fire, `Cancel()`
reporting whether cancellation preempted delivery (a callback that had fired already
makes `Cancel()` answer false, and none fires afterwards); it fires exactly once when
`Cancel()` returned false. -/
def wireContract {Resp E : Type} (evs : List (CallEvent Resp E)) : Bool :=
  decide (callbacksFired evs ≤ 1) &&
  (!execFailed evs || callbacksFired evs == 0) &&
  (!cancelReturned true evs || callbacksFired evs == 0) &&
  (!cancelReturned false evs || callbacksFired evs == 1)

/-- One call of `kvClient_SimpleCall` in a sequence of calls on the shared pool: what
`syncCrudResulterPool.Get()` answers for it, and the complete schedule of the call and
its callback. -/
structure PooledCall (Resp E : Type) where
  pick : Option Nat
  evs : List (CallEvent Resp E)
deriving DecidableEq, Repr

/-- Calls of `kvClient_SimpleCall` on the shared `syncCrudResulterPool`, one resulter
after the other: each call takes its resulter with `allocSyncCrudResulter`, runs its
schedule, and, when it returns, has put the resulter back with
`releaseSyncCrudResulter`; a resulter is owned by one call from `Get` to `Put`. The
pooled resulter is the channel itself, so it is entered as the channel stands at the
end of the schedule. Returns the pool and the final state of every call, in order;
`none` when a schedule is impossible. -/
def runCalls {Resp E : Type} (emptyResp : Resp) :
    List (syncCrudResulter Resp E) → List (PooledCall Resp E) →
    Option (List (syncCrudResulter Resp E) × List (CallState Resp E))
  | pool, [] => some (pool, [])
  | pool, c :: cs =>
    match kvClient_SimpleCall_run emptyResp
        (callEntry (allocSyncCrudResulter pool c.pick).1) c.evs with
    | none => none
    | some s =>
      match runCalls emptyResp
          (if s.isReturned then
            releaseSyncCrudResulter (allocSyncCrudResulter pool c.pick).2 s.chan
          else (allocSyncCrudResulter pool c.pick).2) cs with
      | none => none
      | some (pool', finals) => some (pool', s :: finals)

/-- How many results the channel holds or has waiting to be sent. -/
def syncCrudResulter.pending {Resp E : Type} (c : syncCrudResulter Resp E) : Nat :=
  c.buf.length + c.parked.length

/-- What a schedule run from `callEntry r0` and the state it reaches have to do with each
other, by the place the call stands at. -/
def CallInv {Resp E : Type} (emptyResp : Resp) (r0 : syncCrudResulter Resp E)
    (evs : List (CallEvent Resp E)) (s : CallState Resp E) : Prop :=
  s.chan.pending + s.chanRecvs = r0.pending + callbacksFired evs ∧
  match s.pc with
  | .dispatching =>
    (∀ r, CallEvent.execReturns r ∉ evs) ∧ CallEvent.selectDone ∉ evs ∧
    (∀ b, CallEvent.cancelReturns b ∉ evs) ∧
    s.cancelCalls = 0 ∧ s.chanRecvs = 0 ∧ s.released = none
  | .selecting =>
    (∀ e, CallEvent.execReturns (some e) ∉ evs) ∧ CallEvent.selectDone ∉ evs ∧
    (∀ b, CallEvent.cancelReturns b ∉ evs) ∧
    s.cancelCalls = 0 ∧ s.chanRecvs = 0 ∧ s.released = none
  | .cancelling =>
    (∀ e, CallEvent.execReturns (some e) ∉ evs) ∧ CallEvent.selectDone ∈ evs ∧
    (∀ b, CallEvent.cancelReturns b ∉ evs) ∧
    s.cancelCalls = 0 ∧ s.chanRecvs = 0 ∧ s.released = none ∧ s.ctxErr.isSome
  | .draining =>
    (∀ e, CallEvent.execReturns (some e) ∉ evs) ∧ CallEvent.selectDone ∈ evs ∧
    CallEvent.cancelReturns true ∉ evs ∧ CallEvent.cancelReturns false ∈ evs ∧
    s.cancelCalls = 1 ∧ s.chanRecvs = 0 ∧ s.released = none ∧ s.ctxErr.isSome
  | .returned resp err =>
    (∃ c, s.released = some c ∧ c.pending + s.chanRecvs ≤ r0.pending + callbacksFired evs) ∧
    ((∃ e, CallEvent.execReturns (some e) ∈ evs ∧
        (∀ e', CallEvent.execReturns (some e') ∈ evs → e' = e) ∧
        resp = emptyResp ∧ err = some (.dispatch ⟨e⟩) ∧ CallEvent.selectDone ∉ evs ∧
        (∀ b, CallEvent.cancelReturns b ∉ evs) ∧
        s.cancelCalls = 0 ∧ s.chanRecvs = 0) ∨
     ((∀ e, CallEvent.execReturns (some e) ∉ evs) ∧ CallEvent.selectDone ∉ evs ∧
        (∀ b, CallEvent.cancelReturns b ∉ evs) ∧ s.cancelCalls = 0 ∧ s.chanRecvs = 1) ∨
     ((∀ e, CallEvent.execReturns (some e) ∉ evs) ∧ CallEvent.selectDone ∈ evs ∧
        CallEvent.cancelReturns true ∈ evs ∧ CallEvent.cancelReturns false ∉ evs ∧
        s.cancelCalls = 1 ∧ s.chanRecvs = 0 ∧ resp = emptyResp ∧
        ∃ e, s.ctxErr = some e ∧ err = some (.passed e)) ∨
     ((∀ e, CallEvent.execReturns (some e) ∉ evs) ∧ CallEvent.selectDone ∈ evs ∧
        CallEvent.cancelReturns true ∉ evs ∧ CallEvent.cancelReturns false ∈ evs ∧
        s.cancelCalls = 1 ∧ s.chanRecvs = 1 ∧ resp = emptyResp ∧
        ∃ e, s.ctxErr = some e ∧ err = some (.passed e)))

/-- The result `r` was on the resulter `r0` when the call got it, or the call's own
callback sent it in the schedule. -/
def sentTo {Resp E : Type} (r0 : syncCrudResulter Resp E) (evs : List (CallEvent Resp E))
    (r : syncCrudResult Resp E) : Prop :=
  r ∈ r0.buf ++ r0.parked ∨ CallEvent.callback r.Result r.Err ∈ evs

/-- Where the results on the channel, and the result a call returns, come from. -/
def SourceInv {Resp E : Type} (r0 : syncCrudResulter Resp E)
    (evs : List (CallEvent Resp E)) (s : CallState Resp E) : Prop :=
  (∀ r, r ∈ s.chan.buf ++ s.chan.parked → sentTo r0 evs r) ∧
  match s.pc with
  | .dispatching => True
  | .selecting => True
  | .cancelling => CallEvent.selectDone ∈ evs
  | .draining => CallEvent.selectDone ∈ evs
  | .returned resp err =>
    CallEvent.selectDone ∈ evs ∨ (∃ e, CallEvent.execReturns (some e) ∈ evs) ∨
    ∃ r, sentTo r0 evs r ∧ resp = r.Result ∧ err = r.Err.map .passed

/-! ## agent.go -/

/-- A `*tls.Config` as far as the agent looks at it: the pointer is compared with nil
and copied, never read through. -/
structure TlsConfig where
  handle : Nat
deriving DecidableEq, Repr

/-- Modelled from the spec: the shard map type behind `routeConfig.vbMap`, whose
declaration is not in the sources: an ordered sequence of shard entries, each the node
indices (active first, then replicas) into the server list. -/
abbrev VbucketMap := List (List Int)

/-- Modelled from the spec: the endpoint-list type behind `routeConfig.kvServerList` and
`routeConfig.mgmtEpList`, whose declaration is not in the sources: the addresses split
into an encrypted and a plaintext variant. The field names are the ones agent.go reads. -/
structure routeEndpoints where
  SSLEndpoints : List String
  NonSSLEndpoints : List String
deriving DecidableEq, Repr

/-- Modelled from the spec: the topology snapshot type `routeConfig`, whose declaration is
not in the sources, with the fields `updateStateLocked` reads. -/
structure routeConfig where
  kvServerList : routeEndpoints
  mgmtEpList : routeEndpoints
  vbMap : VbucketMap
deriving DecidableEq, Repr

/-- The Go struct `agentConfigLocked`; a nil `tlsConfig` or `latestConfig` is `none`. -/
structure agentConfigLocked where
  bucket : String
  tlsConfig : Option TlsConfig
  username : String
  password : String
  latestConfig : Option routeConfig
deriving DecidableEq, Repr

/-- The Go struct `KvClientConfig`, with the fields agent.go sets. -/
structure KvClientConfig where
  Address : String
  TlsConfig : Option TlsConfig
  SelectedBucket : String
  Username : String
  Password : String
deriving DecidableEq, Repr

/-- The Go struct `KvClientManagerConfig`. -/
structure KvClientManagerConfig where
  NumPoolConnections : Nat
  Clients : GoMap KvClientConfig
deriving DecidableEq, Repr

/-- The Go struct `vbucketRoutingInfo`. -/
structure vbucketRoutingInfo where
  vbmap : VbucketMap
  serverList : List String
deriving DecidableEq, Repr

/-- What the agent does to its lock and its collaborators, in program order. -/
inductive AgentCall where
  /-- The call `agent.lock.Lock()`. -/
  | Lock
  /-- The call `agent.connMgr.Reconfigure(cfg)`. -/
  | Reconfigure (cfg : KvClientManagerConfig)
  /-- The call `agent.vbs.UpdateRoutingInfo(info)`. -/
  | UpdateRoutingInfo (info : vbucketRoutingInfo)
  /-- The call `agent.poller.UpdateEndpoints(eps)`. -/
  | UpdateEndpoints (eps : List String)
  /-- The call `agent.lock.Unlock()`. -/
  | Unlock
deriving DecidableEq, Repr

/-- The Go expression `make([]string, n)`. -/
def makeStrings (n : Nat) : List String := List.replicate n ""

/-- The Go builtin `copy(dst, src)` on string slices, returning `dst` afterwards: the
first `min(len(dst), len(src))` elements are overwritten. -/
def goCopy (dst src : List String) : List String :=
  src.take dst.length ++ dst.drop src.length

/-- Lines 146-155 of agent.go: the `clients` map built by the loop over `serverList`. -/
def buildClients (config : agentConfigLocked) (serverList : List String) : GoMap KvClientConfig :=
  serverList.foldl
    (fun clients addr =>
      GoMap.set clients addr
        { Address := addr
          TlsConfig := config.tlsConfig
          SelectedBucket := config.bucket
          Username := config.username
          Password := config.password })
    []

/-- The Go method `Agent.updateStateLocked`, as the calls it makes on `connMgr`, `vbs`
and `poller`, in order. `none` is the nil dereference of `latestConfig` at line 125. -/
def Agent.updateStateLocked (config : agentConfigLocked) : Option (List AgentCall) :=
  match config.latestConfig with
  | none => none
  | some routeCfg =>
    let lists : List String × List String :=
      if config.tlsConfig = none then
        (goCopy (makeStrings routeCfg.kvServerList.NonSSLEndpoints.length)
            routeCfg.kvServerList.NonSSLEndpoints,
          goCopy (makeStrings routeCfg.mgmtEpList.NonSSLEndpoints.length)
            routeCfg.mgmtEpList.NonSSLEndpoints)
      else
        (goCopy (makeStrings routeCfg.kvServerList.SSLEndpoints.length)
            routeCfg.kvServerList.SSLEndpoints,
          goCopy (makeStrings routeCfg.mgmtEpList.SSLEndpoints.length)
            routeCfg.mgmtEpList.SSLEndpoints)
    let serverList := lists.1
    let mgmtList := lists.2
    let clients := buildClients config serverList
    some
      [ .Reconfigure { NumPoolConnections := 1, Clients := clients },
        .UpdateRoutingInfo { vbmap := routeCfg.vbMap, serverList := serverList },
        .UpdateEndpoints mgmtList ]

/-- The closure `CreateAgent` registers with `configMgr.RegisterCallback` (lines 101-106),
run on its own: the agent's config afterwards and the calls made, lock included. -/
def topologyCallback (config : agentConfigLocked) (rc : routeConfig) :
    Option (agentConfigLocked × List AgentCall) :=
  let config' := { config with latestConfig := some rc }
  match Agent.updateStateLocked config' with
  | none => none
  | some calls => some (config', AgentCall.Lock :: calls ++ [AgentCall.Unlock])

/-- Where one invocation of the topology-change callback stands. -/
inductive CallbackPc where
  /-- Line 102: about to call `agent.lock.Lock()`. -/
  | start
  /-- Line 103: holds the lock, about to store `rc`. -/
  | locked
  /-- Line 104: `latestConfig` is stored, about to enter `updateStateLocked`. -/
  | stored
  /-- Lines 156-166: inside `updateStateLocked`, with these calls still to make. -/
  | calling (rest : List AgentCall)
  /-- After line 105: the lock is released and the callback has returned. -/
  | done
deriving DecidableEq, Repr

/-- One invocation of the topology-change callback with its argument. -/
structure CallbackThread where
  rc : routeConfig
  pc : CallbackPc
deriving DecidableEq, Repr

/-- The agent with several invocations of the topology-change callback in flight.
`lock` is the agent's mutex: `some t` when invocation `t` holds it. `trace` lists the
calls made so far, oldest first. -/
structure AgentSys where
  config : agentConfigLocked
  lock : Option Nat
  threads : List CallbackThread
  trace : List AgentCall
deriving DecidableEq, Repr

/-- Invocation `t` of the callback takes its next step; `none` when it cannot move
(blocked in `Lock()`, returned, or not an invocation). -/
def AgentSys.step (sys : AgentSys) (t : Nat) : Option AgentSys :=
  match sys.threads[t]? with
  | none => none
  | some th =>
    match th.pc with
    | .start =>
      match sys.lock with
      | some _ => none
      | none =>
        some { sys with
          lock := some t
          threads := sys.threads.set t { th with pc := .locked }
          trace := sys.trace ++ [AgentCall.Lock] }
    | .locked =>
      some { sys with
        config := { sys.config with latestConfig := some th.rc }
        threads := sys.threads.set t { th with pc := .stored } }
    | .stored =>
      match Agent.updateStateLocked sys.config with
      | none => none
      | some calls => some { sys with threads := sys.threads.set t { th with pc := .calling calls } }
    | .calling (c :: rest) =>
      some { sys with
        threads := sys.threads.set t { th with pc := .calling rest }
        trace := sys.trace ++ [c] }
    | .calling [] =>
      some { sys with
        lock := none
        threads := sys.threads.set t { th with pc := .done }
        trace := sys.trace ++ [AgentCall.Unlock] }
    | .done => none

/-- Run the invocations in the order a scheduler picks them. -/
def AgentSys.run : AgentSys → List Nat → Option AgentSys
  | sys, [] => some sys
  | sys, t :: ts =>
    match sys.step t with
    | some sys' => AgentSys.run sys' ts
    | none => none

/-- The agent with the callback invoked once per snapshot of `rcs`, none started yet. -/
def AgentSys.init (config : agentConfigLocked) (rcs : List routeConfig) : AgentSys :=
  { config := config, lock := none, threads := rcs.map (fun rc => ⟨rc, .start⟩), trace := [] }

/-- Modelled from the spec: the state of the agent's collaborators, whose code is not in
the sources. The Connection Pool Manager holds a configured set of node addresses,
the Shard Router its current routing info, the Config Poller its endpoint list. -/
structure Collaborators where
  poolAddrs : List String
  routing : vbucketRoutingInfo
  pollerEndpoints : List String
deriving DecidableEq, Repr

/-- Modelled from the spec: what a call does to the collaborators. `Reconfigure` replaces
the pool's configured set by the addresses of the new config set (connections of
removed addresses are torn down), `UpdateRoutingInfo` swaps the routing info,
`UpdateEndpoints` replaces the poller's list. -/
def Collaborators.apply (c : Collaborators) : AgentCall → Collaborators
  | .Reconfigure cfg => { c with poolAddrs := cfg.Clients.keys }
  | .UpdateRoutingInfo info => { c with routing := info }
  | .UpdateEndpoints eps => { c with pollerEndpoints := eps }
  | .Lock => c
  | .Unlock => c

/-- The collaborators after each call of a sequence: the state after the first call,
after the second, and so on. -/
def Collaborators.history (c : Collaborators) : List AgentCall → List Collaborators
  | [] => []
  | call :: rest => c.apply call :: Collaborators.history (c.apply call) rest

/-- Every address the router can hand out is in the pool's configured set. -/
def Collaborators.routable (c : Collaborators) : Bool :=
  c.routing.serverList.all (fun a => c.poolAddrs.contains a)

/-- The calls one invocation of the topology-change callback makes for the snapshot
`rc`, lock and unlock included. -/
def callbackBlock (config : agentConfigLocked) (rc : routeConfig) : List AgentCall :=
  match topologyCallback config rc with
  | some (_, calls) => calls
  | none => []

/-- The calls of one whole invocation after the other, for the snapshots of `order`. -/
def blocksOf (config : agentConfigLocked) : List routeConfig → List AgentCall
  | [] => []
  | rc :: rest => callbackBlock config rc ++ blocksOf config rest

/-- The snapshots of the invocations `ids`, in that order. -/
def snapshotsOf (rcs : List routeConfig) (ids : List Nat) : List routeConfig :=
  ids.filterMap (fun t => rcs[t]?)

/-- What holds of the agent while invocations of the callback for the snapshots `rcs`
run side by side: the static connection parameters are those of `config`, invocation
`t` is the one for `rcs[t]`, every invocation that does not hold the lock is either
not started or finished, and the trace is the whole blocks of the finished
invocations, each once, in the order `ids` in which they finished, followed by what
the holder of the lock has done so far. -/
def AgentInv (config : agentConfigLocked) (rcs : List routeConfig) (sys : AgentSys) : Prop :=
  sys.config.bucket = config.bucket ∧ sys.config.tlsConfig = config.tlsConfig ∧
  sys.config.username = config.username ∧ sys.config.password = config.password ∧
  sys.threads.map CallbackThread.rc = rcs ∧
  (∀ t' th, sys.threads[t']? = some th → some t' ≠ sys.lock →
    th.pc = .start ∨ th.pc = .done) ∧
  ∃ ids : List Nat,
    ids.Nodup ∧
    (∀ t', t' ∈ ids ↔ ∃ th, sys.threads[t']? = some th ∧ th.pc = .done) ∧
    match sys.lock with
    | none => sys.trace = blocksOf config (snapshotsOf rcs ids)
    | some t =>
      ∃ th, sys.threads[t]? = some th ∧
        match th.pc with
        | .start => False
        | .done => False
        | .locked => sys.trace = blocksOf config (snapshotsOf rcs ids) ++ [AgentCall.Lock]
        | .stored =>
          sys.trace = blocksOf config (snapshotsOf rcs ids) ++ [AgentCall.Lock] ∧
          sys.config.latestConfig = some th.rc
        | .calling rest =>
          ∃ pre,
            Agent.updateStateLocked { config with latestConfig := some th.rc } =
              some (pre ++ rest) ∧
            sys.trace = blocksOf config (snapshotsOf rcs ids) ++ AgentCall.Lock :: pre

/-- The snapshot `old`, then the snapshot `new`: the collaborators after each call of
the second update, started from the collaborators as the first update left them. -/
def secondUpdateHistory (config : agentConfigLocked) (old new : routeConfig) :
    List Collaborators :=
  match Agent.updateStateLocked { config with latestConfig := some old },
        Agent.updateStateLocked { config with latestConfig := some new } with
  | some calls1, some calls2 =>
    let c0 : Collaborators := { poolAddrs := [], routing := ⟨[], []⟩, pollerEndpoints := [] }
    Collaborators.history (calls1.foldl Collaborators.apply c0) calls2
  | _, _ => []

/-- An agent without TLS, for the examples. -/
def plainAgent : agentConfigLocked :=
  { bucket := "default", tlsConfig := none, username := "user", password := "pass",
    latestConfig := none }

/-- A snapshot whose only key-value node is `a`. -/
def snapshotA : routeConfig :=
  { kvServerList := ⟨["a:11207"], ["a:11210"]⟩, mgmtEpList := ⟨["a:18091"], ["a:8091"]⟩,
    vbMap := [[0], [0]] }

/-- A snapshot whose only key-value node is `b`. -/
def snapshotB : routeConfig :=
  { kvServerList := ⟨["b:11207"], ["b:11210"]⟩, mgmtEpList := ⟨["b:18091"], ["b:8091"]⟩,
    vbMap := [[0], [0]] }

/-! ## cbsearchx -/

/-- The Go struct `InvalidArgumentError` of cbsearchx/errors.go. -/
structure InvalidArgumentError where
  Message : String
deriving DecidableEq, Repr

/-- The `error` values of package cbsearchx as far as `Search` returns them: the sentinel
`ErrInvalidArgument`, an `InvalidArgumentError`, or an error of `json.Marshal` or of
`execute` (`X`). -/
inductive SearchGoError (X : Type) where
  | ErrInvalidArgument
  | invalidArgument (e : InvalidArgumentError)
  | other (x : X)
deriving DecidableEq, Repr

/-- The Go method `InvalidArgumentError.Error`. -/
def InvalidArgumentError.Error (e : InvalidArgumentError) : String :=
  "invalid argument: " ++ e.Message

/-- The Go method `InvalidArgumentError.Unwrap`. -/
def InvalidArgumentError.Unwrap {X : Type} (_e : InvalidArgumentError) : SearchGoError X :=
  .ErrInvalidArgument

/-- The Go type `SearchScanConsistency` (a `uint`). -/
abbrev SearchScanConsistency := Nat

/-- The constant `searchScanConsistencyNotSet` (`iota` = 0). -/
def searchScanConsistencyNotSet : SearchScanConsistency := 0

/-- The constant `SearchScanConsistencyNotBounded` (`iota` = 1). -/
def SearchScanConsistencyNotBounded : SearchScanConsistency := 1

/-- The Go struct `SearchHighlightOptions`; `Style` is the `SearchHighlightStyle` string. -/
structure SearchHighlightOptions where
  Style : String
  Fields : List String
deriving DecidableEq, Repr

/-- The values `toMap` stores under `interface{}`. `S` and `F` are the element types
`Sort` and `Facet`, `R` whatever else a caller puts into `Raw`. -/
inductive JsonValue (S F R : Type) where
  | uint32 (n : Nat)
  | bool (b : Bool)
  | string (s : String)
  | strings (l : List String)
  | sorts (l : List S)
  | facet (f : F)
  | vectors (v : GoMap (GoMap (List Nat)))
  | raw (r : R)
  | object (m : List (String × JsonValue S F R))

/-- The Go struct `SearchOptions`. `Highlight`, `Facets`, `ConsistentWith` and `Raw` are
`none` when nil. -/
structure SearchOptions (S F R : Type) where
  ScanConsistency : SearchScanConsistency
  Limit : Nat
  Skip : Nat
  Explain : Bool
  Highlight : Option SearchHighlightOptions
  Fields : List String
  /-- The Go field `Sort`, renamed because `Sort` is reserved. -/
  Sort_ : List S
  Facets : Option (GoMap F)
  ConsistentWith : Option (GoMap (GoMap (List Nat)))
  Raw : Option (GoMap (JsonValue S F R))
  DisableScoring : Bool
  Collections : List String
  IncludeLocations : Bool
  Endpoint : String
  OnBehalfOf : String

/-- The zero value `SearchOptions{}` that `Search` substitutes for a nil `opts`. -/
def SearchOptions.zero (S F R : Type) : SearchOptions S F R :=
  { ScanConsistency := 0, Limit := 0, Skip := 0, Explain := false, Highlight := none,
    Fields := [], Sort_ := [], Facets := none, ConsistentWith := none, Raw := none,
    DisableScoring := false, Collections := [], IncludeLocations := false, Endpoint := "",
    OnBehalfOf := "" }

/-- Lines 64-97 of searchoptions.go: the entries `toMap` writes before it looks at the
consistency options. -/
def SearchOptions.toMapHead {S F R : Type} (opts : SearchOptions S F R) :
    GoMap (JsonValue S F R) :=
  let data : GoMap (JsonValue S F R) := []
  let data := if opts.Limit > 0 then GoMap.set data "size" (.uint32 opts.Limit) else data
  let data := if opts.Skip > 0 then GoMap.set data "from" (.uint32 opts.Skip) else data
  let data := if opts.Explain then GoMap.set data "explain" (.bool opts.Explain) else data
  let data := if opts.Fields.length > 0 then GoMap.set data "fields" (.strings opts.Fields) else data
  let data := if opts.Sort_.length > 0 then GoMap.set data "sort" (.sorts opts.Sort_) else data
  let data :=
    match opts.Highlight with
    | some hl =>
      let highlight : GoMap (JsonValue S F R) := []
      let highlight := GoMap.set highlight "style" (.string hl.Style)
      let highlight := GoMap.set highlight "fields" (.strings hl.Fields)
      GoMap.set data "highlight" (.object highlight)
    | none => data
  let data :=
    match opts.Facets with
    | some fs =>
      let facets : GoMap (JsonValue S F R) :=
        fs.foldl (fun facets kv => GoMap.set facets kv.1 (.facet kv.2)) []
      GoMap.set data "facets" (.object facets)
    | none => data
  data

/-- Lines 129-151 of searchoptions.go: the entries `toMap` writes once `ctl` is
computed. -/
def SearchOptions.toMapTail {S F R : Type} (opts : SearchOptions S F R)
    (data : GoMap (JsonValue S F R)) (ctl : Option (GoMap (JsonValue S F R))) :
    GoMap (JsonValue S F R) :=
  let data :=
    match ctl with
    | some c => GoMap.set data "ctl" (.object c)
    | none => data
  let data := if opts.DisableScoring then GoMap.set data "score" (.string "none") else data
  let data :=
    match opts.Raw with
    | some raw => raw.foldl (fun data kv => GoMap.set data kv.1 kv.2) data
    | none => data
  let data :=
    if opts.Collections.length > 0 then GoMap.set data "collections" (.strings opts.Collections)
    else data
  let data := if opts.IncludeLocations then GoMap.set data "includeLocations" (.bool true) else data
  data

/-- The Go method `SearchOptions.toMap`. Every error it returns is an
`InvalidArgumentError`. -/
def SearchOptions.toMap {S F R : Type} (opts : SearchOptions S F R) (_indexName : String) :
    Except InvalidArgumentError (GoMap (JsonValue S F R)) :=
  let data := opts.toMapHead
  if opts.ScanConsistency ≠ 0 ∧ opts.ConsistentWith.isSome then
    .error ⟨"ScanConsistency and ConsistentWith must be used exclusively"⟩
  else
    let ctl1 : Except InvalidArgumentError (Option (GoMap (JsonValue S F R))) :=
      if opts.ScanConsistency ≠ searchScanConsistencyNotSet then
        let consistency : GoMap (JsonValue S F R) := []
        if opts.ScanConsistency = SearchScanConsistencyNotBounded then
          let consistency := GoMap.set consistency "level" (.string "")
          .ok (some (GoMap.set ([] : GoMap (JsonValue S F R)) "consistency" (.object consistency)))
        else
          .error ⟨"unexpected consistency option"⟩
      else
        .ok none
    match ctl1 with
    | .error e => .error e
    | .ok ctl =>
      let ctl :=
        match opts.ConsistentWith with
        | some cw =>
          let consistency : GoMap (JsonValue S F R) := []
          let consistency := GoMap.set consistency "level" (.string "at_plus")
          let consistency := GoMap.set consistency "vectors" (.vectors cw)
          let ctl := match ctl with
            | none => ([] : GoMap (JsonValue S F R))
            | some c => c
          some (GoMap.set ctl "consistency" (.object consistency))
        | none => ctl
      .ok (opts.toMapTail data ctl)

/-- What `Search` got round to doing, in order. -/
inductive SearchStep where
  /-- Line 28: `opts.toMap(indexName)` was called. -/
  | toMap
  /-- Line 33: `json.Marshal(body)` was called. -/
  | marshal
  /-- Line 38: `h.execute(...)` was called, so an HTTP request may be issued. -/
  | execute
deriving DecidableEq, Repr

/-- The Go method `HttpSearch.Search`: the steps it reached, and the pair
`(*SearchResult, error)` it returned (`none` is nil). `marshal` is `json.Marshal` and
`execute` is `h.execute` with its arguments `query`, `endpoint`, `onBehalfOf`,
`payload`; `P` is the payload, `Q` the query, `A` the `SearchResult`. -/
def HttpSearch.Search {S F R X P Q A : Type}
    (marshal : GoMap (JsonValue S F R) → Except X P)
    (execute : Q → String → String → P → Option A × Option (SearchGoError X))
    (indexName : String) (query : Q) (opts : Option (SearchOptions S F R)) :
    List SearchStep × Option A × Option (SearchGoError X) :=
  let opts :=
    match opts with
    | none => SearchOptions.zero S F R
    | some o => o
  if opts.Endpoint = "" then
    ([], none, some (.invalidArgument ⟨"endpoint cannot be empty"⟩))
  else
    match opts.toMap indexName with
    | .error e => ([.toMap], none, some (.invalidArgument e))
    | .ok body =>
      match marshal body with
      | .error e => ([.toMap, .marshal], none, some (.other e))
      | .ok payload =>
        let r := execute query opts.Endpoint opts.OnBehalfOf payload
        ([.toMap, .marshal, .execute], r.1, r.2)

/-- The options carry a `Raw` entry under the key `ctl`. -/
def SearchOptions.rawHasCtl {S F R : Type} (opts : SearchOptions S F R) : Prop :=
  ∃ raw x, opts.Raw = some raw ∧ ("ctl", x) ∈ raw

/-! ## Example schedules and agents -/

/-- Dispatch fails with error 4 after the context has fired. -/
def failSchedule : List (CallEvent Nat Nat) :=
  [.ctxDone 9, .execReturns (some 4)]

/-- The state `failSchedule` ends in. -/
def failEnd : CallState Nat Nat :=
  { pc := .returned 0 (some (.dispatch ⟨4⟩)), chan := ⟨[], []⟩, ctxErr := some 9,
    cancelCalls := 0, chanRecvs := 0, released := some ⟨[], []⟩ }

/-- The context fires, the `select` takes the `ctx.Done()` case, `Cancel()` returns
true. -/
def cancelSchedule : List (CallEvent Nat Nat) :=
  [.execReturns none, .ctxDone 9, .selectDone, .cancelReturns true]

/-- The state `cancelSchedule` ends in. -/
def cancelEnd : CallState Nat Nat :=
  { pc := .returned 0 (some (.passed 9)), chan := ⟨[], []⟩, ctxErr := some 9,
    cancelCalls := 1, chanRecvs := 0, released := some ⟨[], []⟩ }

/-- The context fires, the `select` takes the `ctx.Done()` case, `Cancel()` returns
false, the callback then delivers 5, and the drain receives it. -/
def drainSchedule : List (CallEvent Nat Nat) :=
  [.execReturns none, .ctxDone 9, .selectDone, .cancelReturns false, .callback 5 none, .recv]

/-- The state `drainSchedule` ends in. -/
def drainEnd : CallState Nat Nat :=
  { pc := .returned 0 (some (.passed 9)), chan := ⟨[], []⟩, ctxErr := some 9,
    cancelCalls := 1, chanRecvs := 1, released := some ⟨[], []⟩ }

/-- The callback delivers 5 and the `select` receives it. -/
def resultSchedule : List (CallEvent Nat Nat) :=
  [.execReturns none, .callback 5 none, .recv]

/-- The state `resultSchedule` ends in. -/
def resultEnd : CallState Nat Nat :=
  { pc := .returned 5 none, chan := ⟨[], []⟩, ctxErr := none,
    cancelCalls := 0, chanRecvs := 1, released := some ⟨[], []⟩ }

/-- Four calls on the shared pool, one per path: cancelled with `Cancel()` false, result
received, cancelled with `Cancel()` true, dispatch error. The first finds the pool
empty, each later one gets the resulter the call before it released. -/
def pooledCalls : List (PooledCall Nat Nat) :=
  [⟨none, drainSchedule⟩, ⟨some 0, resultSchedule⟩, ⟨some 0, cancelSchedule⟩,
    ⟨some 0, failSchedule⟩]

/-- An agent with TLS, holding the snapshot `snapshotA`. -/
def tlsAgentA : agentConfigLocked :=
  { bucket := "default", tlsConfig := some ⟨1⟩, username := "user", password := "pass",
    latestConfig := some snapshotA }

/-- An agent without TLS, holding the snapshot `snapshotA`. -/
def plainAgentA : agentConfigLocked :=
  { plainAgent with latestConfig := some snapshotA }

/-- A snapshot that lists the key-value node `a` twice. -/
def snapshotDup : routeConfig :=
  { kvServerList := ⟨["a:11207", "b:11207", "a:11207"], ["a:11210", "b:11210", "a:11210"]⟩,
    mgmtEpList := ⟨["a:18091", "b:18091"], ["a:8091", "b:8091"]⟩,
    vbMap := [[0], [1], [2]] }

/-- An agent without TLS, holding the snapshot `snapshotDup`. -/
def plainAgentDup : agentConfigLocked :=
  { plainAgent with latestConfig := some snapshotDup }

/-- Search options that ask for not-bounded consistency at an endpoint. -/
def notBoundedOptions : SearchOptions Nat Nat Nat :=
  { SearchOptions.zero Nat Nat Nat with
    ScanConsistency := SearchScanConsistencyNotBounded, Endpoint := "http://fts:8094" }

/-! ## Theorems -/

/-! ### The call bridge: schedules and their invariant -/

theorem run_snoc {Resp E : Type} (emptyResp : Resp) (s : CallState Resp E)
    (es : List (CallEvent Resp E)) (e : CallEvent Resp E) :
    kvClient_SimpleCall_run emptyResp s (es ++ [e]) =
      (kvClient_SimpleCall_run emptyResp s es).bind
        (fun s' => kvClient_SimpleCall_step emptyResp s' e) := by
  induction es generalizing s with
  | nil =>
    simp only [List.nil_append, kvClient_SimpleCall_run, Option.some_bind]
    cases kvClient_SimpleCall_step emptyResp s e <;> rfl
  | cons a as ih =>
    simp only [List.cons_append, kvClient_SimpleCall_run]
    cases kvClient_SimpleCall_step emptyResp s a with
    | none => rfl
    | some s' => exact ih s'

theorem pending_send {Resp E : Type} (c : syncCrudResulter Resp E) (r : syncCrudResult Resp E) :
    (c.send r).pending = c.pending + 1 := by
  unfold syncCrudResulter.send syncCrudResulter.pending
  split <;> simp <;> omega

theorem pending_recv {Resp E : Type} (c c' : syncCrudResulter Resp E)
    (r : syncCrudResult Resp E) (h : c.recv = some (r, c')) : c'.pending + 1 = c.pending := by
  unfold syncCrudResulter.recv at h
  unfold syncCrudResulter.pending
  cases hb : c.buf with
  | nil => simp [hb] at h
  | cons b bs =>
    cases hp : c.parked with
    | nil =>
      simp [hb, hp] at h
      obtain ⟨-, rfl⟩ := h
      simp [hp]
    | cons p ps =>
      simp [hb, hp] at h
      obtain ⟨-, rfl⟩ := h
      simp
      omega

theorem recv_after_send {Resp E : Type} (c : syncCrudResulter Resp E)
    (r : syncCrudResult Resp E) : ∃ x, (c.send r).recv = some x := by
  unfold syncCrudResulter.send syncCrudResulter.recv
  cases hb : c.buf with
  | nil => cases hp : c.parked <;> simp
  | cons b bs => cases hp : c.parked <;> simp

theorem recv_of_buf {Resp E : Type} (c : syncCrudResulter Resp E) (h : c.buf ≠ []) :
    ∃ x, c.recv = some x := by
  unfold syncCrudResulter.recv
  cases hb : c.buf with
  | nil => exact absurd hb h
  | cons b bs => cases hp : c.parked <;> simp

theorem recv_none_of_pending_zero {Resp E : Type} (c : syncCrudResulter Resp E)
    (h : c.pending = 0) : c.recv = none := by
  unfold syncCrudResulter.pending at h
  unfold syncCrudResulter.recv
  cases hb : c.buf with
  | nil => rfl
  | cons b bs => simp [hb] at h

theorem pending_zero {Resp E : Type} (c : syncCrudResulter Resp E) (h : c.pending = 0) :
    c = freshResulter Resp E := by
  cases c with
  | mk buf parked =>
    simp [syncCrudResulter.pending] at h
    simp [freshResulter, h.1, h.2]

theorem callbacksFired_snoc {Resp E : Type} (evs : List (CallEvent Resp E))
    (e : CallEvent Resp E) :
    callbacksFired (evs ++ [e]) = callbacksFired evs + (if e.isCallback then 1 else 0) := by
  unfold callbacksFired
  rw [List.countP_append]
  cases h : e.isCallback <;> simp [List.countP_cons, h]

theorem callInv_entry {Resp E : Type} (emptyResp : Resp) (r0 : syncCrudResulter Resp E) :
    CallInv emptyResp r0 [] (callEntry r0) := by
  simp [CallInv, callEntry, callbacksFired]

theorem callInv_step {Resp E : Type} (emptyResp : Resp) (r0 : syncCrudResulter Resp E)
    (evs : List (CallEvent Resp E)) (s s' : CallState Resp E) (e : CallEvent Resp E)
    (hinv : CallInv emptyResp r0 evs s)
    (hstep : kvClient_SimpleCall_step emptyResp s e = some s') :
    CallInv emptyResp r0 (evs ++ [e]) s' := by
  obtain ⟨hcons, hpc⟩ := hinv
  cases e with
  | callback resp err =>
    simp only [kvClient_SimpleCall_step, Option.some.injEq] at hstep
    subst hstep
    refine ⟨?_, ?_⟩
    · simp [callbacksFired_snoc, CallEvent.isCallback, pending_send]; omega
    · cases hs : s.pc <;> simp [hs] at hpc ⊢ <;>
        simp [callbacksFired_snoc, CallEvent.isCallback, hpc]
      obtain ⟨⟨c, hc, hle⟩, -⟩ := hpc
      exact ⟨c, hc, by omega⟩
  | ctxDone e' =>
    simp only [kvClient_SimpleCall_step] at hstep
    cases hctx : s.ctxErr with
    | some x => simp [hctx] at hstep
    | none =>
      simp [hctx] at hstep
      subst hstep
      refine ⟨?_, ?_⟩
      · simp [callbacksFired_snoc, CallEvent.isCallback]; omega
      · cases hs : s.pc <;> simp [hs, hctx] at hpc ⊢ <;>
          simp [callbacksFired_snoc, CallEvent.isCallback, hpc]
        rcases hpc.2 with h | h
        · exact Or.inl h
        · exact Or.inr (Or.inl h)
  | execReturns r =>
    cases hs : s.pc <;> simp [kvClient_SimpleCall_step, hs] at hstep
    rw [hs] at hpc
    cases r with
    | none =>
      simp at hstep
      subst hstep
      refine ⟨?_, ?_⟩
      · simp [callbacksFired_snoc, CallEvent.isCallback]; omega
      · simp at hpc ⊢
        simp [hpc]
    | some x =>
      simp at hstep
      subst hstep
      refine ⟨?_, ?_⟩
      · simp [callbacksFired_snoc, CallEvent.isCallback, CallState.releaseAndReturn]; omega
      · simp [CallState.releaseAndReturn] at hpc ⊢
        simp [hpc, callbacksFired_snoc, CallEvent.isCallback]
        omega
  | recv =>
    cases hs : s.pc <;> simp [kvClient_SimpleCall_step, hs] at hstep
    · rw [hs] at hpc
      cases hr : s.chan.recv with
      | none => simp [hr] at hstep
      | some x =>
        obtain ⟨res, c⟩ := x
        have hp := pending_recv _ _ _ hr
        simp [hr] at hstep
        subst hstep
        refine ⟨?_, ?_⟩
        · simp [callbacksFired_snoc, CallEvent.isCallback, CallState.releaseAndReturn]; omega
        · simp [CallState.releaseAndReturn] at hpc ⊢
          simp [hpc, callbacksFired_snoc, CallEvent.isCallback]
          omega
    · rw [hs] at hpc
      cases hr : s.chan.recv with
      | none => simp [hr] at hstep
      | some x =>
        obtain ⟨res, c⟩ := x
        have hp := pending_recv _ _ _ hr
        simp [hr] at hstep
        subst hstep
        refine ⟨?_, ?_⟩
        · simp [callbacksFired_snoc, CallEvent.isCallback, CallState.releaseAndReturn]; omega
        · simp [CallState.releaseAndReturn] at hpc ⊢
          obtain ⟨e, he⟩ := Option.isSome_iff_exists.mp hpc.2.2.2.2.2.2.2
          simp [hpc, callbacksFired_snoc, CallEvent.isCallback, he]
          omega
  | selectDone =>
    cases hs : s.pc <;> simp [kvClient_SimpleCall_step, hs] at hstep
    rw [hs] at hpc
    cases hctx : s.ctxErr with
    | none => simp [hctx] at hstep
    | some x =>
      simp [hctx] at hstep
      subst hstep
      refine ⟨?_, ?_⟩
      · simp [callbacksFired_snoc, CallEvent.isCallback]; omega
      · simp at hpc ⊢
        simp [hpc, hctx]
  | cancelReturns b =>
    cases hs : s.pc <;> simp [kvClient_SimpleCall_step, hs] at hstep
    rw [hs] at hpc
    cases b with
    | true =>
      simp at hstep
      subst hstep
      refine ⟨?_, ?_⟩
      · simp [callbacksFired_snoc, CallEvent.isCallback, CallState.releaseAndReturn]; omega
      · simp [CallState.releaseAndReturn] at hpc ⊢
        obtain ⟨e, he⟩ := Option.isSome_iff_exists.mp hpc.2.2.2.2.2.2
        simp [hpc, callbacksFired_snoc, CallEvent.isCallback, he]
        omega
    | false =>
      simp at hstep
      subst hstep
      refine ⟨?_, ?_⟩
      · simp [callbacksFired_snoc, CallEvent.isCallback]; omega
      · simp at hpc ⊢
        simp [hpc]

theorem callInv_run {Resp E : Type} (emptyResp : Resp) (r0 : syncCrudResulter Resp E)
    (evs : List (CallEvent Resp E)) (s : CallState Resp E)
    (hrun : kvClient_SimpleCall_run emptyResp (callEntry r0) evs = some s) :
    CallInv emptyResp r0 evs s := by
  induction evs using List.reverseRecOn generalizing s with
  | nil =>
    simp only [kvClient_SimpleCall_run, Option.some.injEq] at hrun
    subst hrun
    exact callInv_entry emptyResp r0
  | append_singleton es e ih =>
    rw [run_snoc] at hrun
    cases hes : kvClient_SimpleCall_run emptyResp (callEntry r0) es with
    | none => simp [hes] at hrun
    | some s1 =>
      simp only [hes, Option.some_bind] at hrun
      exact callInv_step emptyResp r0 es s1 s e (ih s1 hes) hrun

/-! ### kvClient_SimpleCall: dispatch errors -/

/-- C4: when `execFn` returns an error `e`, `kvClient_SimpleCall` returns the zero
value of `RespT` and `KvClientDispatchError{e}`; it does so directly from the
dispatching state (the step is always enabled there), with no receive on the
completion channel, without taking the `ctx.Done()` case and without calling
`Cancel`; and `KvClientDispatchError{e}.Unwrap()` is `e`. -/
theorem simpleCall_dispatch_error {Resp E : Type} (emptyResp : Resp)
    (r0 : syncCrudResulter Resp E) (evs : List (CallEvent Resp E)) (s : CallState Resp E)
    (e : E)
    (hrun : kvClient_SimpleCall_run emptyResp (callEntry r0) evs = some s)
    (hexec : CallEvent.execReturns (some e) ∈ evs) :
    kvClient_SimpleCall emptyResp r0 evs = some (emptyResp, some (.dispatch ⟨e⟩)) ∧
    s.chanRecvs = 0 ∧ s.cancelCalls = 0 ∧ CallEvent.selectDone ∉ evs ∧
    (∀ b, CallEvent.cancelReturns b ∉ evs) ∧
    (∀ s0 : CallState Resp E, s0.pc = .dispatching →
      kvClient_SimpleCall_step emptyResp s0 (.execReturns (some e)) =
        some (s0.releaseAndReturn emptyResp (some (.dispatch ⟨e⟩)))) ∧
    (KvClientDispatchError.mk e).Unwrap = e := by
  have hinv := callInv_run emptyResp r0 evs s hrun
  obtain ⟨-, hpc⟩ := hinv
  have hret : ∀ resp err, s.pc = .returned resp err →
      kvClient_SimpleCall emptyResp r0 evs = some (resp, err) := by
    intro resp err h
    simp [kvClient_SimpleCall, hrun, h]
  refine ⟨?_, ?_, ?_, ?_, ?_, ?_, rfl⟩
  all_goals first
    | (intro s0 h0; simp [kvClient_SimpleCall_step, h0])
    | skip
  all_goals
    cases hs : s.pc with
    | returned resp err =>
      rw [hs] at hpc
      simp only at hpc
      rcases hpc.2 with ⟨e0, -, huniq, hresp, herr, hsel, hcan, hcc, hcr⟩ | h | h | h
      · have := huniq e hexec
        subst this
        first
          | exact hret _ _ (by rw [hs, hresp, herr])
          | assumption
      · exact absurd hexec (h.1 e)
      · exact absurd hexec (h.1 e)
      · exact absurd hexec (h.1 e)
    | dispatching => rw [hs] at hpc; exact absurd hexec (hpc.1 _)
    | selecting => rw [hs] at hpc; exact absurd hexec (hpc.1 _)
    | cancelling => rw [hs] at hpc; exact absurd hexec (hpc.1 _)
    | draining => rw [hs] at hpc; exact absurd hexec (hpc.1 _)

/-- Witness for C4: dispatch fails with error 4 after the context has fired. -/
theorem simpleCall_dispatch_error_witness :
    kvClient_SimpleCall_run 0 (callEntry (freshResulter Nat Nat)) failSchedule = some failEnd ∧
    CallEvent.execReturns (some 4) ∈ failSchedule ∧
    kvClient_SimpleCall 0 (freshResulter Nat Nat) failSchedule =
      some (0, some (.dispatch ⟨4⟩)) ∧
    failEnd.chanRecvs = 0 ∧ failEnd.cancelCalls = 0 ∧ CallEvent.selectDone ∉ failSchedule :=
  have h := simpleCall_dispatch_error 0 (freshResulter Nat Nat) failSchedule failEnd 4
    (by decide) (by decide)
  ⟨by decide, by decide, h.1, h.2.1, h.2.2.1, h.2.2.2.1⟩

/-! ### kvClient_SimpleCall: the cancellation path -/

theorem ctxErr_step {Resp E : Type} (emptyResp : Resp) (s s' : CallState Resp E)
    (ev : CallEvent Resp E) (hstep : kvClient_SimpleCall_step emptyResp s ev = some s') (e : E)
    (he : s'.ctxErr = some e) : s.ctxErr = some e ∨ ev = .ctxDone e := by
  cases ev with
  | callback resp err =>
    simp only [kvClient_SimpleCall_step, Option.some.injEq] at hstep
    subst hstep
    exact Or.inl he
  | ctxDone e' =>
    simp only [kvClient_SimpleCall_step] at hstep
    cases hctx : s.ctxErr with
    | some x => simp [hctx] at hstep
    | none =>
      simp [hctx] at hstep
      subst hstep
      simp at he
      exact Or.inr (by rw [he])
  | execReturns r =>
    cases hs : s.pc <;> simp [kvClient_SimpleCall_step, hs] at hstep
    cases r <;> simp at hstep <;> subst hstep <;> exact Or.inl he
  | recv =>
    cases hs : s.pc <;> simp [kvClient_SimpleCall_step, hs] at hstep <;>
      cases hr : s.chan.recv <;> simp [hr] at hstep <;> subst hstep <;> exact Or.inl he
  | selectDone =>
    cases hs : s.pc <;> simp [kvClient_SimpleCall_step, hs] at hstep
    cases hctx : s.ctxErr <;> simp [hctx] at hstep
    subst hstep
    exact Or.inl (hctx ▸ he)
  | cancelReturns b =>
    cases hs : s.pc <;> simp [kvClient_SimpleCall_step, hs] at hstep
    cases b <;> simp at hstep <;> subst hstep <;> exact Or.inl he

theorem ctxErr_run {Resp E : Type} (emptyResp : Resp) (r0 : syncCrudResulter Resp E)
    (evs : List (CallEvent Resp E)) (s : CallState Resp E)
    (hrun : kvClient_SimpleCall_run emptyResp (callEntry r0) evs = some s) (e : E)
    (he : s.ctxErr = some e) : CallEvent.ctxDone e ∈ evs := by
  induction evs using List.reverseRecOn generalizing s with
  | nil =>
    simp only [kvClient_SimpleCall_run, Option.some.injEq] at hrun
    subst hrun
    simp [callEntry] at he
  | append_singleton es ev ih =>
    rw [run_snoc] at hrun
    cases hes : kvClient_SimpleCall_run emptyResp (callEntry r0) es with
    | none => simp [hes] at hrun
    | some s1 =>
      simp only [hes, Option.some_bind] at hrun
      rcases ctxErr_step emptyResp s1 s ev hrun e he with h | h
      · exact List.mem_append_left _ (ih s1 hes h)
      · simp [h]

/-- C1: in every run of `kvClient_SimpleCall` whose `select` took the `ctx.Done()`
case, `pendingOp.Cancel()` is invoked at most once, and once the call has returned it
was invoked exactly once and the call returned the zero value of `RespT` with
`ctx.Err()`, the error the context was cancelled with, whatever `Cancel()` answered
and whatever the callback delivered. The call does return: from the `Cancel()` call a
true answer returns at once, and a false answer returns as soon as the callback has
delivered its result, which is dropped. -/
theorem simpleCall_cancel_path {Resp E : Type} (emptyResp : Resp)
    (r0 : syncCrudResulter Resp E) (evs : List (CallEvent Resp E)) (s : CallState Resp E)
    (hrun : kvClient_SimpleCall_run emptyResp (callEntry r0) evs = some s)
    (hdone : CallEvent.selectDone ∈ evs) :
    s.cancelCalls ≤ 1 ∧
    (∀ resp err, s.pc = .returned resp err →
      s.cancelCalls = 1 ∧ resp = emptyResp ∧
      ∃ e, CallEvent.ctxDone e ∈ evs ∧ s.ctxErr = some e ∧ err = some (.passed e) ∧
        kvClient_SimpleCall emptyResp r0 evs = some (emptyResp, some (.passed e))) ∧
    (s.pc = .cancelling →
      (∃ e, s.ctxErr = some e ∧
        ((kvClient_SimpleCall_step emptyResp s (.cancelReturns true)).map CallState.pc =
            some (.returned emptyResp (some (.passed e)))) ∧
        (s.chan.buf ≠ [] →
          (kvClient_SimpleCall_run emptyResp s [.cancelReturns false, .recv]).map CallState.pc =
            some (.returned emptyResp (some (.passed e)))) ∧
        ∀ resp err,
          (kvClient_SimpleCall_run emptyResp s
              [.cancelReturns false, .callback resp err, .recv]).map CallState.pc =
            some (.returned emptyResp (some (.passed e))))) := by
  have hinv := callInv_run emptyResp r0 evs s hrun
  obtain ⟨-, hpc⟩ := hinv
  refine ⟨?_, ?_, ?_⟩
  · cases hs : s.pc <;> rw [hs] at hpc <;> simp only at hpc
    · exact absurd hdone hpc.2.1
    · exact absurd hdone hpc.2.1
    · omega
    · omega
    · rcases hpc.2 with ⟨e0, -, -, -, -, hsel, -⟩ | h | h | h
      · exact absurd hdone hsel
      · exact absurd hdone h.2.1
      · omega
      · omega
  · intro resp err hs
    rw [hs] at hpc
    simp only at hpc
    rcases hpc.2 with ⟨e0, -, -, -, -, hsel, -⟩ | h | h | h
    · exact absurd hdone hsel
    · exact absurd hdone h.2.1
    · obtain ⟨-, -, -, -, hcc, -, hresp, e, hctx, herr⟩ := h
      exact ⟨hcc, hresp, e, ctxErr_run emptyResp r0 evs s hrun e hctx, hctx, herr,
        by simp [kvClient_SimpleCall, hrun, hs, hresp, herr]⟩
    · obtain ⟨-, -, -, -, hcc, -, hresp, e, hctx, herr⟩ := h
      exact ⟨hcc, hresp, e, ctxErr_run emptyResp r0 evs s hrun e hctx, hctx, herr,
        by simp [kvClient_SimpleCall, hrun, hs, hresp, herr]⟩
  · intro hs
    rw [hs] at hpc
    simp only at hpc
    obtain ⟨e, he⟩ := Option.isSome_iff_exists.mp hpc.2.2.2.2.2.2
    refine ⟨e, he, ?_, ?_, ?_⟩
    · simp [kvClient_SimpleCall_step, hs, CallState.releaseAndReturn, he]
    · intro hbuf
      obtain ⟨x, hx⟩ := recv_of_buf s.chan hbuf
      simp [kvClient_SimpleCall_run, kvClient_SimpleCall_step, hs, hx,
        CallState.releaseAndReturn, he]
    · intro resp err
      obtain ⟨x, hx⟩ := recv_after_send s.chan ⟨resp, err⟩
      simp [kvClient_SimpleCall_run, kvClient_SimpleCall_step, hs, hx,
        CallState.releaseAndReturn, he]

/-- Witness for C1: the context fires, `Cancel()` returns false, the callback then
delivers 5, and the call still returns the zero value with `ctx.Err()`. -/
theorem simpleCall_cancel_path_witness :
    kvClient_SimpleCall_run 0 (callEntry (freshResulter Nat Nat)) drainSchedule = some drainEnd ∧
    CallEvent.selectDone ∈ drainSchedule ∧
    drainEnd.cancelCalls ≤ 1 ∧
    (∀ resp err, drainEnd.pc = .returned resp err →
      drainEnd.cancelCalls = 1 ∧ resp = 0 ∧
      ∃ e, CallEvent.ctxDone e ∈ drainSchedule ∧ drainEnd.ctxErr = some e ∧
        err = some (.passed e) ∧
        kvClient_SimpleCall 0 (freshResulter Nat Nat) drainSchedule =
          some (0, some (.passed e))) :=
  have h := simpleCall_cancel_path 0 (freshResulter Nat Nat) drainSchedule drainEnd
    (by decide) (by decide)
  ⟨by decide, by decide, h.1, h.2.1⟩

/-- C2 as stated fails: in the schedule where the context fires, the `select` takes
the `ctx.Done()` case and `Cancel()` returns false, the call stands in the blocking
receive of line 74 with an empty channel, the receive cannot complete, and the call
returns only after the callback has delivered, having performed one receive. -/
theorem simpleCall_cancel_false_waits :
    kvClient_SimpleCall_run (0 : Nat) (callEntry (freshResulter Nat Nat))
        [.execReturns none, .ctxDone 9, .selectDone, .cancelReturns false] =
      some { pc := .draining, chan := ⟨[], []⟩, ctxErr := some 9,
             cancelCalls := 1, chanRecvs := 0, released := none } ∧
    kvClient_SimpleCall_step (0 : Nat)
        ({ pc := .draining, chan := ⟨[], []⟩, ctxErr := some 9,
           cancelCalls := 1, chanRecvs := 0, released := none } : CallState Nat Nat) .recv =
      none ∧
    kvClient_SimpleCall_run (0 : Nat) (callEntry (freshResulter Nat Nat))
        [.execReturns none, .ctxDone 9, .selectDone, .cancelReturns false, .callback 5 none,
          .recv] =
      some { pc := .returned 0 (some (.passed 9)), chan := ⟨[], []⟩, ctxErr := some 9,
             cancelCalls := 1, chanRecvs := 1, released := some ⟨[], []⟩ } := by
  decide

/-- C2, amended: on the `ctx.Done()` path the call returns without any receive on the
completion channel when `Cancel()` returned true, and that return is the very next
step after `Cancel()`; when `Cancel()` returned false the call has performed exactly
one receive on the completion channel by the time it returns, and while it stands
in that receive with nothing delivered on the channel no step of the call is possible
and the context cannot fire again: only the callback can happen. -/
theorem simpleCall_cancel_recvs {Resp E : Type} (emptyResp : Resp)
    (r0 : syncCrudResulter Resp E) (evs : List (CallEvent Resp E)) (s : CallState Resp E)
    (hrun : kvClient_SimpleCall_run emptyResp (callEntry r0) evs = some s)
    (hdone : CallEvent.selectDone ∈ evs) :
    (s.isReturned = true → CallEvent.cancelReturns true ∈ evs → s.chanRecvs = 0) ∧
    (s.isReturned = true → CallEvent.cancelReturns false ∈ evs → s.chanRecvs = 1) ∧
    (s.pc = .cancelling →
      ∃ s', kvClient_SimpleCall_step emptyResp s (.cancelReturns true) = some s' ∧
        s'.isReturned = true ∧ s'.chanRecvs = 0) ∧
    (s.pc = .draining → s.chan.pending = 0 →
      kvClient_SimpleCall_step emptyResp s .recv = none ∧
      kvClient_SimpleCall_step emptyResp s .selectDone = none ∧
      (∀ b, kvClient_SimpleCall_step emptyResp s (.cancelReturns b) = none) ∧
      (∀ r, kvClient_SimpleCall_step emptyResp s (.execReturns r) = none) ∧
      (∀ e, kvClient_SimpleCall_step emptyResp s (.ctxDone e) = none)) := by
  have hinv := callInv_run emptyResp r0 evs s hrun
  obtain ⟨-, hpc⟩ := hinv
  refine ⟨?_, ?_, ?_, ?_⟩
  · intro hret hc
    cases hs : s.pc <;> simp [CallState.isReturned, hs] at hret
    rw [hs] at hpc
    simp only at hpc
    rcases hpc.2 with ⟨e0, -, -, -, -, hsel, -⟩ | h | h | h
    · exact absurd hdone hsel
    · exact absurd hdone h.2.1
    · exact h.2.2.2.2.2.1
    · exact absurd hc h.2.2.1
  · intro hret hc
    cases hs : s.pc <;> simp [CallState.isReturned, hs] at hret
    rw [hs] at hpc
    simp only at hpc
    rcases hpc.2 with ⟨e0, -, -, -, -, hsel, -⟩ | h | h | h
    · exact absurd hdone hsel
    · exact absurd hdone h.2.1
    · exact absurd hc h.2.2.2.1
    · exact h.2.2.2.2.2.1
  · intro hs
    rw [hs] at hpc
    simp only at hpc
    simp [kvClient_SimpleCall_step, hs, CallState.releaseAndReturn, CallState.isReturned,
      hpc.2.2.2.2.1]
  · intro hs hp
    rw [hs] at hpc
    simp only at hpc
    obtain ⟨e, he⟩ := Option.isSome_iff_exists.mp hpc.2.2.2.2.2.2.2
    simp [kvClient_SimpleCall_step, hs, recv_none_of_pending_zero s.chan hp, he]

/-- Witness for C2 as amended: `Cancel()` returns true and the call returns with no
receive on the completion channel. -/
theorem simpleCall_cancel_recvs_witness :
    kvClient_SimpleCall_run 0 (callEntry (freshResulter Nat Nat)) cancelSchedule =
      some cancelEnd ∧
    CallEvent.selectDone ∈ cancelSchedule ∧
    cancelEnd.isReturned = true ∧ CallEvent.cancelReturns true ∈ cancelSchedule ∧
    cancelEnd.chanRecvs = 0 :=
  have h := simpleCall_cancel_recvs 0 (freshResulter Nat Nat) cancelSchedule cancelEnd
    (by decide) (by decide)
  ⟨by decide, by decide, by decide, by decide, h.1 (by decide) (by decide)⟩

/-! ### kvClient_SimpleCall: the pooled completion channel -/

theorem sentTo_snoc {Resp E : Type} (r0 : syncCrudResulter Resp E)
    (evs : List (CallEvent Resp E)) (e : CallEvent Resp E) (r : syncCrudResult Resp E)
    (h : sentTo r0 evs r) : sentTo r0 (evs ++ [e]) r := by
  rcases h with h | h
  · exact Or.inl h
  · exact Or.inr (List.mem_append_left _ h)

theorem mem_of_send {Resp E : Type} (c : syncCrudResulter Resp E) (x r : syncCrudResult Resp E)
    (h : r ∈ (c.send x).buf ++ (c.send x).parked) : r = x ∨ r ∈ c.buf ++ c.parked := by
  unfold syncCrudResulter.send at h
  split at h
  · simp only [List.mem_append, List.mem_singleton] at h ⊢
    tauto
  · simp only [List.mem_append, List.mem_singleton] at h ⊢
    tauto

theorem mem_of_recv {Resp E : Type} (c c' : syncCrudResulter Resp E)
    (x : syncCrudResult Resp E) (h : c.recv = some (x, c')) :
    x ∈ c.buf ++ c.parked ∧ ∀ r, r ∈ c'.buf ++ c'.parked → r ∈ c.buf ++ c.parked := by
  unfold syncCrudResulter.recv at h
  cases hb : c.buf with
  | nil => simp [hb] at h
  | cons b bs =>
    cases hp : c.parked with
    | nil =>
      simp [hb, hp] at h
      obtain ⟨rfl, rfl⟩ := h
      simp [hp]
      tauto
    | cons p ps =>
      simp [hb, hp] at h
      obtain ⟨rfl, rfl⟩ := h
      simp
      tauto

theorem sourceInv_step {Resp E : Type} (emptyResp : Resp) (r0 : syncCrudResulter Resp E)
    (evs : List (CallEvent Resp E)) (s s' : CallState Resp E) (e : CallEvent Resp E)
    (hinv : SourceInv r0 evs s)
    (hstep : kvClient_SimpleCall_step emptyResp s e = some s') :
    SourceInv r0 (evs ++ [e]) s' := by
  obtain ⟨hchan, hpc⟩ := hinv
  have hchan' : ∀ r, r ∈ s.chan.buf ++ s.chan.parked → sentTo r0 (evs ++ [e]) r :=
    fun r hr => sentTo_snoc r0 evs e r (hchan r hr)
  cases e with
  | callback resp err =>
    simp only [kvClient_SimpleCall_step, Option.some.injEq] at hstep
    subst hstep
    refine ⟨?_, ?_⟩
    · intro r hr
      rcases mem_of_send _ _ _ hr with h | h
      · subst h
        exact Or.inr (by simp)
      · exact hchan' r h
    · cases hs : s.pc <;> simp only [hs] at hpc ⊢
      · exact List.mem_append_left _ hpc
      · exact List.mem_append_left _ hpc
      · rcases hpc with h | ⟨e0, h⟩ | ⟨r, hr, h⟩
        · exact Or.inl (List.mem_append_left _ h)
        · exact Or.inr (Or.inl ⟨e0, List.mem_append_left _ h⟩)
        · exact Or.inr (Or.inr ⟨r, sentTo_snoc _ _ _ _ hr, h⟩)
  | ctxDone e' =>
    simp only [kvClient_SimpleCall_step] at hstep
    cases hctx : s.ctxErr with
    | some x => simp [hctx] at hstep
    | none =>
      simp [hctx] at hstep
      subst hstep
      refine ⟨hchan', ?_⟩
      cases hs : s.pc <;> simp only [hs] at hpc ⊢
      · exact List.mem_append_left _ hpc
      · exact List.mem_append_left _ hpc
      · rcases hpc with h | ⟨e0, h⟩ | ⟨r, hr, h⟩
        · exact Or.inl (List.mem_append_left _ h)
        · exact Or.inr (Or.inl ⟨e0, List.mem_append_left _ h⟩)
        · exact Or.inr (Or.inr ⟨r, sentTo_snoc _ _ _ _ hr, h⟩)
  | execReturns r =>
    cases hs : s.pc <;> simp [kvClient_SimpleCall_step, hs] at hstep
    cases r with
    | none =>
      simp at hstep
      subst hstep
      exact ⟨hchan', trivial⟩
    | some x =>
      simp at hstep
      subst hstep
      refine ⟨hchan', ?_⟩
      simp only [CallState.releaseAndReturn]
      exact Or.inr (Or.inl ⟨x, by simp⟩)
  | recv =>
    cases hs : s.pc <;> simp [kvClient_SimpleCall_step, hs] at hstep
    · cases hr : s.chan.recv with
      | none => simp [hr] at hstep
      | some x =>
        obtain ⟨res, c⟩ := x
        obtain ⟨hres, hsub⟩ := mem_of_recv _ _ _ hr
        simp [hr] at hstep
        subst hstep
        refine ⟨fun r h => hchan' r (hsub r h), ?_⟩
        simp only [CallState.releaseAndReturn]
        exact Or.inr (Or.inr ⟨res, hchan' res hres, rfl, rfl⟩)
    · rw [hs] at hpc
      cases hr : s.chan.recv with
      | none => simp [hr] at hstep
      | some x =>
        obtain ⟨res, c⟩ := x
        obtain ⟨hres, hsub⟩ := mem_of_recv _ _ _ hr
        simp [hr] at hstep
        subst hstep
        refine ⟨fun r h => hchan' r (hsub r h), ?_⟩
        simp only [CallState.releaseAndReturn]
        exact Or.inl (List.mem_append_left _ hpc)
  | selectDone =>
    cases hs : s.pc <;> simp [kvClient_SimpleCall_step, hs] at hstep
    cases hctx : s.ctxErr with
    | none => simp [hctx] at hstep
    | some x =>
      simp [hctx] at hstep
      subst hstep
      exact ⟨hchan', by simp⟩
  | cancelReturns b =>
    cases hs : s.pc <;> simp [kvClient_SimpleCall_step, hs] at hstep
    rw [hs] at hpc
    cases b with
    | true =>
      simp at hstep
      subst hstep
      refine ⟨hchan', ?_⟩
      simp only [CallState.releaseAndReturn]
      exact Or.inl (List.mem_append_left _ hpc)
    | false =>
      simp at hstep
      subst hstep
      exact ⟨hchan', List.mem_append_left _ hpc⟩

theorem sourceInv_run {Resp E : Type} (emptyResp : Resp) (r0 : syncCrudResulter Resp E)
    (evs : List (CallEvent Resp E)) (s : CallState Resp E)
    (hrun : kvClient_SimpleCall_run emptyResp (callEntry r0) evs = some s) :
    SourceInv r0 evs s := by
  induction evs using List.reverseRecOn generalizing s with
  | nil =>
    simp only [kvClient_SimpleCall_run, Option.some.injEq] at hrun
    subst hrun
    exact ⟨fun r hr => Or.inl hr, trivial⟩
  | append_singleton es e ih =>
    rw [run_snoc] at hrun
    cases hes : kvClient_SimpleCall_run emptyResp (callEntry r0) es with
    | none => simp [hes] at hrun
    | some s1 =>
      simp only [hes, Option.some_bind] at hrun
      exact sourceInv_step emptyResp r0 es s1 s e (ih s1 hes) hrun


theorem execFailed_iff {Resp E : Type} (evs : List (CallEvent Resp E)) :
    execFailed evs = true ↔ ∃ e, CallEvent.execReturns (some e) ∈ evs := by
  unfold execFailed
  rw [List.any_eq_true]
  constructor
  · rintro ⟨ev, hmem, hev⟩
    cases ev with
    | execReturns r =>
      cases r with
      | none => simp at hev
      | some e => exact ⟨e, hmem⟩
    | _ => simp at hev
  · rintro ⟨e, hmem⟩
    exact ⟨_, hmem, rfl⟩

theorem cancelReturned_iff {Resp E : Type} (b : Bool) (evs : List (CallEvent Resp E)) :
    cancelReturned b evs = true ↔ CallEvent.cancelReturns b ∈ evs := by
  unfold cancelReturned
  rw [List.any_eq_true]
  constructor
  · rintro ⟨ev, hmem, hev⟩
    cases ev with
    | cancelReturns b' =>
      simp at hev
      subst hev
      exact hmem
    | _ => simp at hev
  · intro hmem
    exact ⟨_, hmem, by simp⟩

theorem call_release_clean {Resp E : Type} (emptyResp : Resp)
    (r0 : syncCrudResulter Resp E) (evs : List (CallEvent Resp E)) (s : CallState Resp E)
    (hclean : r0 = freshResulter Resp E)
    (hrun : kvClient_SimpleCall_run emptyResp (callEntry r0) evs = some s)
    (hcontract : wireContract evs = true) :
    (s.isReturned = true →
      s.released = some (freshResulter Resp E) ∧ s.chan = freshResulter Resp E ∧
      callbacksFired evs = s.chanRecvs) ∧
    (∀ resp err, s.pc = .returned resp err → CallEvent.selectDone ∉ evs →
      (∀ e, CallEvent.execReturns (some e) ∉ evs) →
      ∃ cerr, CallEvent.callback resp cerr ∈ evs ∧ err = cerr.map .passed) := by
  have hsrc := sourceInv_run emptyResp r0 evs s hrun
  refine ⟨?_, ?_⟩
  · intro hret
    have hinv := callInv_run emptyResp r0 evs s hrun
    obtain ⟨hcons, hpc⟩ := hinv
    have hr0 : r0.pending = 0 := by rw [hclean]; rfl
    simp only [wireContract, Bool.and_eq_true, Bool.or_eq_true, Bool.not_eq_true',
      decide_eq_true_eq, beq_iff_eq] at hcontract
    obtain ⟨⟨⟨hle, hexec⟩, htrue⟩, hfalse⟩ := hcontract
    cases hs : s.pc <;> simp [CallState.isReturned, hs] at hret
    rw [hs] at hpc
    simp only at hpc
    obtain ⟨⟨c, hc, hcle⟩, hpath⟩ := hpc
    have key : c.pending = 0 ∧ s.chan.pending = 0 ∧ callbacksFired evs = s.chanRecvs := by
      rcases hpath with ⟨e0, hmem, -, -, -, -, -, -, hcr⟩ | h | h | h
      · have h0 : callbacksFired evs = 0 := by
          rcases hexec with h | h
          · have := (execFailed_iff evs).mpr ⟨e0, hmem⟩
            rw [this] at h
            exact absurd h (by simp)
          · exact h
        omega
      · have := h.2.2.2.2
        omega
      · have h0 : callbacksFired evs = 0 := by
          rcases htrue with h' | h'
          · have := (cancelReturned_iff true evs).mpr h.2.2.1
            rw [this] at h'
            exact absurd h' (by simp)
          · exact h'
        have := h.2.2.2.2.2.1
        omega
      · have h1 : callbacksFired evs = 1 := by
          rcases hfalse with h' | h'
          · have := (cancelReturned_iff false evs).mpr h.2.2.2.1
            rw [this] at h'
            exact absurd h' (by simp)
          · exact h'
        have := h.2.2.2.2.2.1
        omega
    obtain ⟨k1, k2, k3⟩ := key
    exact ⟨by rw [hc, pending_zero c k1], pending_zero s.chan k2, k3⟩
  · intro resp err hret' hsel hex
    obtain ⟨-, hsrc'⟩ := hsrc
    rw [hret'] at hsrc'
    simp only at hsrc'
    rcases hsrc' with h | ⟨e0, h⟩ | ⟨r, hr, h1, h2⟩
    · exact absurd h hsel
    · exact absurd h (hex e0)
    · rcases hr with hr | hr
      · rw [hclean] at hr
        simp [freshResulter] at hr
      · exact ⟨r.Err, by rw [h1]; exact hr, h2⟩

theorem alloc_clean {Resp E : Type} (pool : List (syncCrudResulter Resp E))
    (pick : Option Nat) (hpool : ∀ r, r ∈ pool → r = freshResulter Resp E) :
    (allocSyncCrudResulter pool pick).1 = freshResulter Resp E ∧
    ∀ r, r ∈ (allocSyncCrudResulter pool pick).2 → r = freshResulter Resp E := by
  cases pick with
  | none => exact ⟨rfl, hpool⟩
  | some i =>
    cases hi : pool[i]? with
    | none =>
      simp only [allocSyncCrudResulter, poolGet, hi]
      exact ⟨trivial, hpool⟩
    | some v =>
      simp only [allocSyncCrudResulter, poolGet, hi]
      refine ⟨hpool v (List.getElem?_mem hi), ?_⟩
      intro r hr
      exact hpool r (List.mem_of_mem_eraseIdx hr)

/-- C3: under the wire-codec contract (the callback sends at most once; it does not
fire when `execFn` returns an error; it does not fire when `Cancel()` returned true,
`Cancel()` reporting whether cancellation preempted delivery; it fires exactly once
when `Cancel()` returned false), take any sequence of calls of `kvClient_SimpleCall` on
the shared pool, the pool empty at the start and `Get` free to answer nil or any
pooled resulter. Then every call starts on a resulter whose channel is empty, and
every call that returns, by whichever path (dispatch error, result received,
cancelled with `Cancel()` true or false), handed `releaseSyncCrudResulter` a resulter
whose channel buffers nothing and has no send parked on it; the channel is still so
at the end of the call's schedule, and every send of its callback was received by the
call itself. So the pool only ever holds clean resulters, and a result a call
returns through the receive case of its `select` is one its own callback sent. -/
theorem pooled_resulter_clean {Resp E : Type} (emptyResp : Resp)
    (calls : List (PooledCall Resp E)) (pool : List (syncCrudResulter Resp E))
    (finals : List (CallState Resp E))
    (hcontract : ∀ c, c ∈ calls → wireContract c.evs = true)
    (hrun : runCalls emptyResp [] calls = some (pool, finals)) :
    (∀ r, r ∈ pool → r = freshResulter Resp E) ∧
    finals.length = calls.length ∧
    ∀ c s, (c, s) ∈ calls.zip finals →
      kvClient_SimpleCall_run emptyResp (callEntry (freshResulter Resp E)) c.evs = some s ∧
      (s.isReturned = true →
        s.released = some (freshResulter Resp E) ∧ s.chan = freshResulter Resp E ∧
        callbacksFired c.evs = s.chanRecvs) ∧
      (∀ resp err, s.pc = .returned resp err → CallEvent.selectDone ∉ c.evs →
        (∀ e, CallEvent.execReturns (some e) ∉ c.evs) →
        ∃ cerr, CallEvent.callback resp cerr ∈ c.evs ∧ err = cerr.map .passed) := by
  suffices H : ∀ (calls : List (PooledCall Resp E)) (pool0 pool : List (syncCrudResulter Resp E))
      (finals : List (CallState Resp E)),
      (∀ r, r ∈ pool0 → r = freshResulter Resp E) →
      (∀ c, c ∈ calls → wireContract c.evs = true) →
      runCalls emptyResp pool0 calls = some (pool, finals) →
      (∀ r, r ∈ pool → r = freshResulter Resp E) ∧
      finals.length = calls.length ∧
      ∀ c s, (c, s) ∈ calls.zip finals →
        kvClient_SimpleCall_run emptyResp (callEntry (freshResulter Resp E)) c.evs = some s ∧
        (s.isReturned = true →
          s.released = some (freshResulter Resp E) ∧ s.chan = freshResulter Resp E ∧
          callbacksFired c.evs = s.chanRecvs) ∧
        (∀ resp err, s.pc = .returned resp err → CallEvent.selectDone ∉ c.evs →
          (∀ e, CallEvent.execReturns (some e) ∉ c.evs) →
          ∃ cerr, CallEvent.callback resp cerr ∈ c.evs ∧ err = cerr.map .passed) from
    H calls [] pool finals (by simp) hcontract hrun
  intro calls
  induction calls with
  | nil =>
    intro pool0 pool finals hpool _ hrun
    simp only [runCalls, Option.some.injEq, Prod.mk.injEq] at hrun
    obtain ⟨rfl, rfl⟩ := hrun
    exact ⟨hpool, rfl, by simp⟩
  | cons c cs ih =>
    intro pool0 pool finals hpool hcontract hrun
    obtain ⟨hfresh, hrest⟩ := alloc_clean pool0 c.pick hpool
    simp only [runCalls] at hrun
    rw [hfresh] at hrun
    cases hcall : kvClient_SimpleCall_run emptyResp (callEntry (freshResulter Resp E)) c.evs with
    | none => simp [hcall] at hrun
    | some s =>
      simp only [hcall] at hrun
      have hc := call_release_clean emptyResp (freshResulter Resp E) c.evs s rfl hcall
        (hcontract c (List.mem_cons_self _ _))
      have hnext : ∀ r, r ∈ (if s.isReturned = true then
          releaseSyncCrudResulter (allocSyncCrudResulter pool0 c.pick).2 s.chan
          else (allocSyncCrudResulter pool0 c.pick).2) → r = freshResulter Resp E := by
        intro r hr
        by_cases hret : s.isReturned = true
        · simp only [hret, if_true, releaseSyncCrudResulter, List.mem_cons] at hr
          rcases hr with h | h
          · rw [h]; exact (hc.1 hret).2.1
          · exact hrest r h
        · simp only [hret] at hr
          exact hrest r hr
      cases hrec : runCalls emptyResp (if s.isReturned = true then
          releaseSyncCrudResulter (allocSyncCrudResulter pool0 c.pick).2 s.chan
          else (allocSyncCrudResulter pool0 c.pick).2) cs with
      | none => simp [hrec] at hrun
      | some res =>
        obtain ⟨pool1, finals1⟩ := res
        simp only [hrec, Option.some.injEq, Prod.mk.injEq] at hrun
        obtain ⟨rfl, rfl⟩ := hrun
        obtain ⟨h1, h2, h3⟩ := ih _ pool1 finals1 hnext
          (fun c' hc' => hcontract c' (List.mem_cons_of_mem _ hc')) hrec
        refine ⟨h1, by simp [h2], ?_⟩
        intro c' s' hmem
        simp only [List.zip_cons_cons, List.mem_cons, Prod.mk.injEq] at hmem
        rcases hmem with ⟨rfl, rfl⟩ | hmem
        · exact ⟨hcall, hc.1, hc.2⟩
        · exact h3 c' s' hmem

/-- Witness for C3: four calls on the shared pool, one per path, each after the first
reusing the resulter released before it. -/
theorem pooled_resulter_clean_witness :
    (∀ c, c ∈ pooledCalls → wireContract c.evs = true) ∧
    runCalls 0 [] pooledCalls =
      some ([freshResulter Nat Nat], [drainEnd, resultEnd, cancelEnd, failEnd]) ∧
    (∀ r, r ∈ [freshResulter Nat Nat] → r = freshResulter Nat Nat) ∧
    (drainEnd.released = some (freshResulter Nat Nat) ∧ drainEnd.chan = freshResulter Nat Nat ∧
      callbacksFired drainSchedule = drainEnd.chanRecvs) ∧
    (∃ cerr, CallEvent.callback 5 cerr ∈ resultSchedule ∧
      (none : Option (CallError Nat)) = cerr.map .passed) :=
  have hc : ∀ c, c ∈ pooledCalls → wireContract c.evs = true := by decide
  have h := pooled_resulter_clean 0 pooledCalls [freshResulter Nat Nat]
    [drainEnd, resultEnd, cancelEnd, failEnd] hc (by decide)
  ⟨hc, by decide, h.1,
    (h.2.2 ⟨none, drainSchedule⟩ drainEnd (by decide)).2.1 (by decide),
    (h.2.2 ⟨some 0, resultSchedule⟩ resultEnd (by decide)).2.2 5 none rfl (by decide)
      (by simp [resultSchedule])⟩

/-! ### Go maps -/

theorem GoMap.get_set_self {V : Type} (m : GoMap V) (k : String) (v : V) :
    GoMap.get (GoMap.set m k v) k = some v := by
  induction m with
  | nil => simp [GoMap.set, GoMap.get]
  | cons p rest ih =>
    obtain ⟨k', v'⟩ := p
    by_cases h : k' = k
    · simp [GoMap.set, GoMap.get, h]
    · simp [GoMap.set, GoMap.get, h, ih]

theorem GoMap.get_set_ne {V : Type} (m : GoMap V) (k a : String) (v : V) (hne : a ≠ k) :
    GoMap.get (GoMap.set m k v) a = GoMap.get m a := by
  induction m with
  | nil =>
    have : ¬ k = a := fun h => hne h.symm
    simp [GoMap.set, GoMap.get, this]
  | cons p rest ih =>
    obtain ⟨k', v'⟩ := p
    by_cases h : k' = k
    · have : ¬ k = a := fun h => hne h.symm
      have h2 : ¬ k' = a := by rw [h]; exact this
      simp [GoMap.set, GoMap.get, h, this]
    · by_cases h2 : k' = a
      · subst h2
        simp [GoMap.set, GoMap.get, h]
      · simp [GoMap.set, GoMap.get, h, h2, ih]

theorem GoMap.mem_keys_set {V : Type} (m : GoMap V) (k a : String) (v : V) :
    a ∈ GoMap.keys (GoMap.set m k v) ↔ a = k ∨ a ∈ GoMap.keys m := by
  induction m with
  | nil => simp [GoMap.set, GoMap.keys]
  | cons p rest ih =>
    obtain ⟨k', v'⟩ := p
    by_cases h : k' = k
    · subst h
      simp [GoMap.set, GoMap.keys]
    · simp only [GoMap.keys] at ih
      simp [GoMap.set, GoMap.keys, h, ih]
      tauto

theorem GoMap.nodup_keys_set {V : Type} (m : GoMap V) (k : String) (v : V)
    (hm : (GoMap.keys m).Nodup) : (GoMap.keys (GoMap.set m k v)).Nodup := by
  induction m with
  | nil => simp [GoMap.set, GoMap.keys]
  | cons p rest ih =>
    obtain ⟨k', v'⟩ := p
    have hm' : k' ∉ GoMap.keys rest ∧ (GoMap.keys rest).Nodup := by
      simpa [GoMap.keys] using hm
    by_cases h : k' = k
    · subst h
      simpa [GoMap.set, GoMap.keys] using hm
    · have hk : k' ∉ GoMap.keys (GoMap.set rest k v) := by
        rw [GoMap.mem_keys_set]
        rintro (h1 | h1)
        · exact h h1
        · exact hm'.1 h1
      have := ih hm'.2
      simp only [GoMap.keys] at this hk
      simp [GoMap.set, GoMap.keys, h, this, hk]

theorem GoMap.get_eq_none {V : Type} (m : GoMap V) (a : String) (h : a ∉ GoMap.keys m) :
    GoMap.get m a = none := by
  induction m with
  | nil => rfl
  | cons p rest ih =>
    obtain ⟨k', v'⟩ := p
    simp only [GoMap.keys, List.map_cons, List.mem_cons, not_or] at h
    have h1 : ¬ k' = a := fun h' => h.1 h'.symm
    simp only [GoMap.get, h1, if_false]
    exact ih (by simpa [GoMap.keys] using h.2)

/-! ### Agent.updateStateLocked -/

theorem goCopy_make (l : List String) : goCopy (makeStrings l.length) l = l := by
  simp [goCopy, makeStrings]

/-- The entry `updateStateLocked` stores under the address `a`. -/
theorem buildClients_spec (config : agentConfigLocked) (serverList : List String) :
    (GoMap.keys (buildClients config serverList)).Nodup ∧
    (∀ a, a ∈ GoMap.keys (buildClients config serverList) ↔ a ∈ serverList) ∧
    (∀ a, a ∈ serverList →
      GoMap.get (buildClients config serverList) a =
        some { Address := a, TlsConfig := config.tlsConfig, SelectedBucket := config.bucket,
               Username := config.username, Password := config.password }) := by
  unfold buildClients
  suffices H : ∀ (l : List String) (acc : GoMap KvClientConfig),
      (GoMap.keys acc).Nodup →
      (∀ a, a ∈ GoMap.keys acc →
        GoMap.get acc a =
          some { Address := a, TlsConfig := config.tlsConfig, SelectedBucket := config.bucket,
                 Username := config.username, Password := config.password }) →
      let m := l.foldl
        (fun clients addr =>
          GoMap.set clients addr
            { Address := addr, TlsConfig := config.tlsConfig, SelectedBucket := config.bucket,
              Username := config.username, Password := config.password })
        acc
      (GoMap.keys m).Nodup ∧ (∀ a, a ∈ GoMap.keys m ↔ a ∈ GoMap.keys acc ∨ a ∈ l) ∧
      (∀ a, a ∈ GoMap.keys m →
        GoMap.get m a =
          some { Address := a, TlsConfig := config.tlsConfig, SelectedBucket := config.bucket,
                 Username := config.username, Password := config.password }) by
    have h := H serverList [] (by simp [GoMap.keys]) (by simp [GoMap.keys])
    simp only at h
    refine ⟨h.1, ?_, ?_⟩
    · intro a
      rw [h.2.1 a]
      simp [GoMap.keys]
    · intro a ha
      exact h.2.2 a ((h.2.1 a).mpr (Or.inr ha))
  intro l
  induction l with
  | nil =>
    intro acc hnd hget
    simp only [List.foldl_nil]
    exact ⟨hnd, by simp, hget⟩
  | cons x xs ih =>
    intro acc hnd hget
    simp only [List.foldl_cons]
    have hnd' := GoMap.nodup_keys_set acc x
      { Address := x, TlsConfig := config.tlsConfig, SelectedBucket := config.bucket,
        Username := config.username, Password := config.password } hnd
    have hget' : ∀ a, a ∈ GoMap.keys (GoMap.set acc x
        { Address := x, TlsConfig := config.tlsConfig, SelectedBucket := config.bucket,
          Username := config.username, Password := config.password }) →
        GoMap.get (GoMap.set acc x
          { Address := x, TlsConfig := config.tlsConfig, SelectedBucket := config.bucket,
            Username := config.username, Password := config.password }) a =
          some { Address := a, TlsConfig := config.tlsConfig, SelectedBucket := config.bucket,
                 Username := config.username, Password := config.password } := by
      intro a ha
      by_cases hax : a = x
      · subst hax
        exact GoMap.get_set_self _ _ _
      · rw [GoMap.get_set_ne _ _ _ _ hax]
        rw [GoMap.mem_keys_set] at ha
        rcases ha with h1 | h1
        · exact absurd h1 hax
        · exact hget a h1
    have h := ih _ hnd' hget'
    simp only at h
    refine ⟨h.1, ?_, h.2.2⟩
    intro a
    rw [h.2.1 a, GoMap.mem_keys_set]
    simp only [List.mem_cons]
    tauto

theorem updateStateLocked_eq (config : agentConfigLocked) (rc : routeConfig)
    (hrc : config.latestConfig = some rc) :
    Agent.updateStateLocked config =
      some
        [ .Reconfigure
            { NumPoolConnections := 1
              Clients := buildClients config
                (if config.tlsConfig = none then rc.kvServerList.NonSSLEndpoints
                 else rc.kvServerList.SSLEndpoints) },
          .UpdateRoutingInfo
            { vbmap := rc.vbMap
              serverList :=
                if config.tlsConfig = none then rc.kvServerList.NonSSLEndpoints
                else rc.kvServerList.SSLEndpoints },
          .UpdateEndpoints
            (if config.tlsConfig = none then rc.mgmtEpList.NonSSLEndpoints
             else rc.mgmtEpList.SSLEndpoints) ] := by
  unfold Agent.updateStateLocked
  rw [hrc]
  by_cases h : config.tlsConfig = none <;> simp [h, goCopy_make]

/-- C5: for the snapshot `rc` that `updateStateLocked` handles, with a nil `tlsConfig`
the server list given to `UpdateRoutingInfo` is `rc.kvServerList.NonSSLEndpoints` and
the list given to `UpdateEndpoints` is `rc.mgmtEpList.NonSSLEndpoints`, as lists (same
length, same order, so position `i` holds the same address); with a non-nil `tlsConfig`
they are the `SSLEndpoints` lists; in both cases the routing info carries `rc.vbMap`
of the same snapshot next to that server list. -/
theorem updateStateLocked_endpoint_lists (config : agentConfigLocked) (rc : routeConfig)
    (hrc : config.latestConfig = some rc) :
    ∃ cfg info eps,
      Agent.updateStateLocked config =
        some [.Reconfigure cfg, .UpdateRoutingInfo info, .UpdateEndpoints eps] ∧
      info.vbmap = rc.vbMap ∧
      (config.tlsConfig = none →
        info.serverList = rc.kvServerList.NonSSLEndpoints ∧
        eps = rc.mgmtEpList.NonSSLEndpoints ∧
        ∀ i : Nat, info.serverList[i]? = rc.kvServerList.NonSSLEndpoints[i]?) ∧
      (config.tlsConfig ≠ none →
        info.serverList = rc.kvServerList.SSLEndpoints ∧
        eps = rc.mgmtEpList.SSLEndpoints ∧
        ∀ i : Nat, info.serverList[i]? = rc.kvServerList.SSLEndpoints[i]?) := by
  refine ⟨_, _, _, updateStateLocked_eq config rc hrc, rfl, ?_, ?_⟩
  · intro h
    simp [h]
  · intro h
    simp [h]

/-- Witness for C5: an agent with TLS hands out the encrypted endpoint lists. -/
theorem updateStateLocked_endpoint_lists_witness :
    tlsAgentA.latestConfig = some snapshotA ∧
    ∃ cfg info eps,
      Agent.updateStateLocked tlsAgentA =
        some [.Reconfigure cfg, .UpdateRoutingInfo info, .UpdateEndpoints eps] ∧
      info.vbmap = [[0], [0]] ∧ info.serverList = ["a:11207"] ∧ eps = ["a:18091"] := by
  refine ⟨rfl, ?_⟩
  obtain ⟨cfg, info, eps, h1, h2, -, h4⟩ :=
    updateStateLocked_endpoint_lists tlsAgentA snapshotA rfl
  have h := h4 (by decide)
  exact ⟨cfg, info, eps, h1, h2, h.1, h.2.1⟩

/-- C6: let `sel` be the key-value server list `updateStateLocked` selects from the
snapshot `rc` (`rc.kvServerList.NonSSLEndpoints` when `tlsConfig` is nil,
`rc.kvServerList.SSLEndpoints` otherwise). The server list handed to
`UpdateRoutingInfo` is `sel`, and the config handed to `KvClientManager.Reconfigure`
has `NumPoolConnections` 1 and holds exactly one entry per distinct address of `sel`
and no other: its keys are, up to order, `sel` without repetitions; the entry under
`a` has `Address = a` and the agent's own `tlsConfig`, `bucket`, `username` and
`password`; an address outside `sel` has no entry. So every address the router can
return has an entry. -/
theorem updateStateLocked_client_set (config : agentConfigLocked) (rc : routeConfig)
    (sel : List String)
    (hrc : config.latestConfig = some rc)
    (hsel : sel = if config.tlsConfig = none then rc.kvServerList.NonSSLEndpoints
      else rc.kvServerList.SSLEndpoints) :
    ∃ cfg info eps,
      Agent.updateStateLocked config =
        some [.Reconfigure cfg, .UpdateRoutingInfo info, .UpdateEndpoints eps] ∧
      info.serverList = sel ∧
      cfg.NumPoolConnections = 1 ∧
      (GoMap.keys cfg.Clients).Perm sel.dedup ∧
      (GoMap.keys cfg.Clients).Perm info.serverList.dedup ∧
      (∀ a, a ∈ GoMap.keys cfg.Clients ↔ a ∈ sel) ∧
      (∀ a, a ∈ GoMap.keys cfg.Clients ↔ a ∈ info.serverList) ∧
      (∀ a, a ∈ sel →
        GoMap.get cfg.Clients a =
          some { Address := a, TlsConfig := config.tlsConfig, SelectedBucket := config.bucket,
                 Username := config.username, Password := config.password }) ∧
      (∀ a, a ∉ sel → GoMap.get cfg.Clients a = none) ∧
      (∀ (i : Nat) (a : String), info.serverList[i]? = some a →
        (GoMap.get cfg.Clients a).isSome = true) := by
  subst hsel
  refine ⟨_, _, _, updateStateLocked_eq config rc hrc, rfl, rfl, ?_, ?_, ?_, ?_, ?_, ?_, ?_⟩
  all_goals simp only
  all_goals
    obtain ⟨hnd, hkeys, hget⟩ := buildClients_spec config
      (if config.tlsConfig = none then rc.kvServerList.NonSSLEndpoints
       else rc.kvServerList.SSLEndpoints)
  · rw [List.perm_ext_iff_of_nodup hnd (List.nodup_dedup _)]
    intro a
    rw [hkeys a, List.mem_dedup]
  · rw [List.perm_ext_iff_of_nodup hnd (List.nodup_dedup _)]
    intro a
    rw [hkeys a, List.mem_dedup]
  · exact hkeys
  · exact hkeys
  · exact hget
  · intro a ha
    exact GoMap.get_eq_none _ _ (fun h => ha ((hkeys a).mp h))
  · intro i a hi
    rw [hget a (List.getElem?_mem hi)]
    rfl

/-- Witness for C6: an agent without TLS and a snapshot that lists node `a` twice and
node `b` once; the client set has one entry for `a:11210`, one for `b:11210`, none
for any other address. -/
theorem updateStateLocked_client_set_witness :
    plainAgentDup.latestConfig = some snapshotDup ∧
    (["a:11210", "b:11210", "a:11210"] =
      if plainAgentDup.tlsConfig = none then snapshotDup.kvServerList.NonSSLEndpoints
      else snapshotDup.kvServerList.SSLEndpoints) ∧
    Agent.updateStateLocked plainAgentDup =
      some
        [ .Reconfigure
            { NumPoolConnections := 1
              Clients :=
                [("a:11210",
                    { Address := "a:11210", TlsConfig := none, SelectedBucket := "default",
                      Username := "user", Password := "pass" }),
                  ("b:11210",
                    { Address := "b:11210", TlsConfig := none, SelectedBucket := "default",
                      Username := "user", Password := "pass" })] },
          .UpdateRoutingInfo
            { vbmap := [[0], [1], [2]], serverList := ["a:11210", "b:11210", "a:11210"] },
          .UpdateEndpoints ["a:8091", "b:8091"] ] ∧
    ∃ cfg info eps,
      Agent.updateStateLocked plainAgentDup =
        some [.Reconfigure cfg, .UpdateRoutingInfo info, .UpdateEndpoints eps] ∧
      info.serverList = ["a:11210", "b:11210", "a:11210"] ∧
      cfg.NumPoolConnections = 1 ∧
      (GoMap.keys cfg.Clients).Perm ["b:11210", "a:11210"] ∧
      GoMap.get cfg.Clients "a:11210" =
        some { Address := "a:11210", TlsConfig := none, SelectedBucket := "default",
               Username := "user", Password := "pass" } ∧
      GoMap.get cfg.Clients "b:11210" =
        some { Address := "b:11210", TlsConfig := none, SelectedBucket := "default",
               Username := "user", Password := "pass" } ∧
      GoMap.get cfg.Clients "c:11210" = none := by
  refine ⟨rfl, by decide, by decide, ?_⟩
  obtain ⟨cfg, info, eps, h1, h2, h3, h4, -, -, -, h8, h9, -⟩ :=
    updateStateLocked_client_set plainAgentDup snapshotDup
      ["a:11210", "b:11210", "a:11210"] rfl (by decide)
  have hd : (["a:11210", "b:11210", "a:11210"] : List String).dedup =
      ["b:11210", "a:11210"] := by decide
  rw [hd] at h4
  exact ⟨cfg, info, eps, h1, h2, h3, h4, h8 "a:11210" (by decide), h8 "b:11210" (by decide),
    h9 "c:11210" (by decide)⟩

/-- C7 does not hold of the code: updating from a snapshot whose only node is `a` to one
whose only node is `b`, `updateStateLocked` calls `Reconfigure` first, so after that
call and before `UpdateRoutingInfo` the router still lists `a:11210` while the pool's
configured set is `b:11210` alone. -/
theorem updateStateLocked_drops_before_rerouting :
    Agent.updateStateLocked { plainAgent with latestConfig := some snapshotB } =
      some
        [ .Reconfigure
            { NumPoolConnections := 1
              Clients := [("b:11210",
                { Address := "b:11210", TlsConfig := none, SelectedBucket := "default",
                  Username := "user", Password := "pass" })] },
          .UpdateRoutingInfo { vbmap := [[0], [0]], serverList := ["b:11210"] },
          .UpdateEndpoints ["b:8091"] ] ∧
    secondUpdateHistory plainAgent snapshotA snapshotB =
      [ { poolAddrs := ["b:11210"], routing := ⟨[[0], [0]], ["a:11210"]⟩,
          pollerEndpoints := ["a:8091"] },
        { poolAddrs := ["b:11210"], routing := ⟨[[0], [0]], ["b:11210"]⟩,
          pollerEndpoints := ["a:8091"] },
        { poolAddrs := ["b:11210"], routing := ⟨[[0], [0]], ["b:11210"]⟩,
          pollerEndpoints := ["b:8091"] } ] ∧
    (secondUpdateHistory plainAgent snapshotA snapshotB).map Collaborators.routable =
      [false, true, true] := by
  decide

/-! ### The topology-change callback under the agent lock -/

theorem blocksOf_snoc (config : agentConfigLocked) (order : List routeConfig)
    (rc : routeConfig) :
    blocksOf config (order ++ [rc]) = blocksOf config order ++ callbackBlock config rc := by
  induction order with
  | nil => simp [blocksOf]
  | cons x xs ih => simp [blocksOf, ih]

theorem callbackBlock_eq (config : agentConfigLocked) (rc : routeConfig)
    (calls : List AgentCall)
    (h : Agent.updateStateLocked { config with latestConfig := some rc } = some calls) :
    callbackBlock config rc = AgentCall.Lock :: calls ++ [AgentCall.Unlock] := by
  simp [callbackBlock, topologyCallback, h]

theorem config_eq_of_static (config cfg : agentConfigLocked) (rc : routeConfig)
    (h1 : cfg.bucket = config.bucket) (h2 : cfg.tlsConfig = config.tlsConfig)
    (h3 : cfg.username = config.username) (h4 : cfg.password = config.password)
    (h5 : cfg.latestConfig = some rc) :
    cfg = { config with latestConfig := some rc } := by
  cases cfg
  cases config
  simp_all

theorem map_rc_set (threads : List CallbackThread) (t : Nat) (th : CallbackThread)
    (pc' : CallbackPc) (hth : threads[t]? = some th) :
    (threads.set t { th with pc := pc' }).map CallbackThread.rc =
      threads.map CallbackThread.rc := by
  apply List.ext_getElem?
  intro i
  by_cases hi : i = t
  · subst hi
    have hlt : i < threads.length := by
      by_contra hge
      rw [List.getElem?_eq_none (by omega)] at hth
      exact absurd hth (by simp)
    rw [List.getElem?_map, List.getElem?_set_self hlt, List.getElem?_map, hth]
    rfl
  · rw [List.getElem?_map, List.getElem?_set_ne (fun h => hi h.symm), List.getElem?_map]

theorem done_iff_keep (threads : List CallbackThread) (t : Nat) (th x : CallbackThread)
    (ids : List Nat) (hth : threads[t]? = some th) (h1 : th.pc ≠ .done) (h2 : x.pc ≠ .done)
    (hdone : ∀ t', t' ∈ ids ↔ ∃ th', threads[t']? = some th' ∧ th'.pc = .done) :
    ∀ t', t' ∈ ids ↔ ∃ th', (threads.set t x)[t']? = some th' ∧ th'.pc = .done := by
  have hlt : t < threads.length := by
    by_contra hge
    rw [List.getElem?_eq_none (by omega)] at hth
    exact absurd hth (by simp)
  intro t'
  by_cases ht : t' = t
  · subst ht
    rw [hdone t', List.getElem?_set_self hlt, hth]
    constructor
    · rintro ⟨th', h, hd⟩
      simp only [Option.some.injEq] at h
      subst h
      exact absurd hd h1
    · rintro ⟨th', h, hd⟩
      simp only [Option.some.injEq] at h
      subst h
      exact absurd hd h2
  · rw [hdone t', List.getElem?_set_ne (fun h => ht h.symm)]

theorem done_iff_finish (threads : List CallbackThread) (t : Nat) (th x : CallbackThread)
    (ids : List Nat) (hth : threads[t]? = some th) (h1 : th.pc ≠ .done) (h2 : x.pc = .done)
    (hnd : ids.Nodup)
    (hdone : ∀ t', t' ∈ ids ↔ ∃ th', threads[t']? = some th' ∧ th'.pc = .done) :
    (ids ++ [t]).Nodup ∧
    ∀ t', t' ∈ ids ++ [t] ↔ ∃ th', (threads.set t x)[t']? = some th' ∧ th'.pc = .done := by
  have hlt : t < threads.length := by
    by_contra hge
    rw [List.getElem?_eq_none (by omega)] at hth
    exact absurd hth (by simp)
  have hnot : t ∉ ids := by
    intro h
    obtain ⟨th', h', hd⟩ := (hdone t).mp h
    rw [hth] at h'
    simp only [Option.some.injEq] at h'
    subst h'
    exact h1 hd
  refine ⟨?_, ?_⟩
  · rw [List.nodup_append]
    refine ⟨hnd, by simp, ?_⟩
    intro a ha hb
    simp only [List.mem_singleton] at hb
    subst hb
    exact hnot ha
  · intro t'
    by_cases ht : t' = t
    · subst ht
      rw [List.getElem?_set_self hlt]
      simp [h2]
    · rw [List.getElem?_set_ne (fun h => ht h.symm), List.mem_append, hdone t']
      simp [ht]

theorem snapshotsOf_snoc (rcs : List routeConfig) (ids : List Nat) (t : Nat)
    (rc : routeConfig) (h : rcs[t]? = some rc) :
    snapshotsOf rcs (ids ++ [t]) = snapshotsOf rcs ids ++ [rc] := by
  simp [snapshotsOf, List.filterMap_append, h]

theorem agentInv_init (config : agentConfigLocked) (rcs : List routeConfig) :
    AgentInv config rcs (AgentSys.init config rcs) := by
  refine ⟨rfl, rfl, rfl, rfl, ?_, ?_, [], List.nodup_nil, ?_, ?_⟩
  · simp [AgentSys.init, Function.comp_def]
  · intro t' th hth _
    simp only [AgentSys.init, List.getElem?_map] at hth
    cases hr : rcs[t']? with
    | none => simp [hr] at hth
    | some rc =>
      simp [hr] at hth
      subst hth
      exact Or.inl rfl
  · intro t'
    simp only [AgentSys.init, List.getElem?_map, List.not_mem_nil, false_iff]
    rintro ⟨th, hth, hd⟩
    cases hr : rcs[t']? with
    | none => simp [hr] at hth
    | some rc =>
      simp [hr] at hth
      subst hth
      simp at hd
  · simp [AgentSys.init, blocksOf, snapshotsOf]

theorem agentInv_step (config : agentConfigLocked) (rcs : List routeConfig)
    (sys sys' : AgentSys) (t : Nat)
    (hinv : AgentInv config rcs sys) (hstep : sys.step t = some sys') :
    AgentInv config rcs sys' := by
  obtain ⟨hb, htls, hu, hp, hrcs, hidle, ids, hnd, hdone, htrace⟩ := hinv
  unfold AgentSys.step at hstep
  cases hth : sys.threads[t]? with
  | none => simp [hth] at hstep
  | some th =>
    have hlt : t < sys.threads.length := by
      by_contra hge
      rw [List.getElem?_eq_none (by omega)] at hth
      exact absurd hth (by simp)
    simp only [hth] at hstep
    have hlock : th.pc ≠ .start → th.pc ≠ .done → sys.lock = some t := by
      intro h1 h2
      by_contra hne
      rcases hidle t th hth (fun h => hne h.symm) with h | h
      · exact h1 h
      · exact h2 h
    have hget : ∀ (x : CallbackThread) (t' : Nat), t' ≠ t →
        (sys.threads.set t x)[t']? = sys.threads[t']? := by
      intro x t' hne
      rw [List.getElem?_set_ne (fun h => hne h.symm)]
    have hself : ∀ x : CallbackThread, (sys.threads.set t x)[t]? = some x := by
      intro x
      exact List.getElem?_set_self hlt
    have hmap : ∀ pc' : CallbackPc,
        (sys.threads.set t { th with pc := pc' }).map CallbackThread.rc = rcs := by
      intro pc'
      rw [map_rc_set sys.threads t th pc' hth, hrcs]
    cases hpc : th.pc with
    | start =>
      simp only [hpc] at hstep
      cases hl : sys.lock with
      | some t0 => simp [hl] at hstep
      | none =>
        simp only [hl, Option.some.injEq] at hstep
        subst hstep
        rw [hl] at htrace
        simp only at htrace
        refine ⟨hb, htls, hu, hp, hmap _, ?_, ids, hnd,
          done_iff_keep _ t th _ ids hth (by simp [hpc]) (by simp) hdone, ?_⟩
        · intro t' th' hth' hne
          have hne' : t' ≠ t := fun h => hne (by rw [h])
          simp only at hth'
          rw [hget _ _ hne'] at hth'
          exact hidle t' th' hth' (by rw [hl]; simp)
        · simp only
          exact ⟨_, hself _, by simp [htrace]⟩
    | locked =>
      simp only [hpc, Option.some.injEq] at hstep
      subst hstep
      have hl := hlock (by simp [hpc]) (by simp [hpc])
      rw [hl] at htrace
      simp only at htrace
      obtain ⟨th0, hth0, ht0⟩ := htrace
      rw [hth] at hth0
      simp only [Option.some.injEq] at hth0
      subst hth0
      rw [hpc] at ht0
      simp only at ht0
      refine ⟨hb, htls, hu, hp, hmap _, ?_, ids, hnd,
        done_iff_keep _ t th _ ids hth (by simp [hpc]) (by simp) hdone, ?_⟩
      · intro t' th' hth' hne
        simp only at hth' hne
        have hne' : t' ≠ t := fun h => hne (by rw [h, hl])
        rw [hget _ _ hne'] at hth'
        exact hidle t' th' hth' hne
      · simp only [hl]
        exact ⟨_, hself _, by simp [ht0]⟩
    | stored =>
      simp only [hpc] at hstep
      have hl := hlock (by simp [hpc]) (by simp [hpc])
      rw [hl] at htrace
      simp only at htrace
      obtain ⟨th0, hth0, ht0⟩ := htrace
      rw [hth] at hth0
      simp only [Option.some.injEq] at hth0
      subst hth0
      rw [hpc] at ht0
      simp only at ht0
      cases hupd : Agent.updateStateLocked sys.config with
      | none => simp [hupd] at hstep
      | some calls =>
        simp only [hupd, Option.some.injEq] at hstep
        subst hstep
        have hcfg := config_eq_of_static config sys.config th.rc hb htls hu hp ht0.2
        refine ⟨hb, htls, hu, hp, hmap _, ?_, ids, hnd,
          done_iff_keep _ t th _ ids hth (by simp [hpc]) (by simp) hdone, ?_⟩
        · intro t' th' hth' hne
          simp only at hth' hne
          have hne' : t' ≠ t := fun h => hne (by rw [h, hl])
          rw [hget _ _ hne'] at hth'
          exact hidle t' th' hth' hne
        · simp only [hl]
          refine ⟨_, hself _, ?_⟩
          simp only
          refine ⟨[], ?_, ?_⟩
          · rw [← hcfg, hupd]; simp
          · simp [ht0.1]
    | calling todo =>
      have hl := hlock (by simp [hpc]) (by simp [hpc])
      rw [hl] at htrace
      simp only at htrace
      obtain ⟨th0, hth0, ht0⟩ := htrace
      rw [hth] at hth0
      simp only [Option.some.injEq] at hth0
      subst hth0
      rw [hpc] at ht0
      simp only at ht0
      obtain ⟨pre, hcalls, htr⟩ := ht0
      cases todo with
      | cons c rest =>
        simp only [hpc, Option.some.injEq] at hstep
        subst hstep
        refine ⟨hb, htls, hu, hp, hmap _, ?_, ids, hnd,
          done_iff_keep _ t th _ ids hth (by simp [hpc]) (by simp) hdone, ?_⟩
        · intro t' th' hth' hne
          simp only at hth' hne
          have hne' : t' ≠ t := fun h => hne (by rw [h, hl])
          rw [hget _ _ hne'] at hth'
          exact hidle t' th' hth' hne
        · simp only [hl]
          refine ⟨_, hself _, ?_⟩
          simp only
          refine ⟨pre ++ [c], ?_, ?_⟩
          · rw [hcalls]; simp
          · simp [htr]
      | nil =>
        simp only [hpc, Option.some.injEq] at hstep
        subst hstep
        obtain ⟨hnd', hdone'⟩ :=
          done_iff_finish sys.threads t th { th with pc := .done } ids hth (by simp [hpc]) rfl
            hnd hdone
        have hrc : rcs[t]? = some th.rc := by
          rw [← hrcs, List.getElem?_map, hth]
          rfl
        refine ⟨hb, htls, hu, hp, hmap _, ?_, ids ++ [t], hnd', hdone', ?_⟩
        · intro t' th' hth' _
          simp only at hth'
          by_cases hne' : t' = t
          · subst hne'
            rw [hself] at hth'
            simp only [Option.some.injEq] at hth'
            subst hth'
            exact Or.inr rfl
          · rw [hget _ _ hne'] at hth'
            exact hidle t' th' hth' (fun h => hne' (by rw [hl] at h; simpa using h))
        · simp only
          rw [snapshotsOf_snoc rcs ids t th.rc hrc, blocksOf_snoc,
            callbackBlock_eq config th.rc pre (by simpa using hcalls), htr]
          simp
    | done => simp [hpc] at hstep

theorem agentInv_run (config : agentConfigLocked) (rcs : List routeConfig) (sched : List Nat)
    (sys sys' : AgentSys)
    (hinv : AgentInv config rcs sys) (hrun : sys.run sched = some sys') :
    AgentInv config rcs sys' := by
  induction sched generalizing sys with
  | nil =>
    simp only [AgentSys.run, Option.some.injEq] at hrun
    subst hrun
    exact hinv
  | cons t ts ih =>
    simp only [AgentSys.run] at hrun
    cases hst : sys.step t with
    | none => simp [hst] at hrun
    | some s1 =>
      simp only [hst] at hrun
      exact ih s1 (agentInv_step config rcs sys s1 t hinv hst) hrun

/-- C9: one invocation of the topology-change callback for the snapshot `rc` stores
`rc` as `latestConfig` and makes, in this order, `Lock`, one `Reconfigure`, one
`UpdateRoutingInfo`, one `UpdateEndpoints`, `Unlock`. When the callback is invoked
once per snapshot of `rcs` and the invocations run side by side under any
scheduling, the calls observed are the whole blocks of the finished invocations,
each finished invocation exactly once and for its own snapshot, one block after the
other, followed by the calls made so far by the one invocation that holds the lock
(a leading part of its block, empty when the lock is free): the steps of two
updates never interleave. -/
theorem topologyCallback_serialised (config : agentConfigLocked) (rcs : List routeConfig)
    (sched : List Nat) (sys : AgentSys)
    (hrun : (AgentSys.init config rcs).run sched = some sys) :
    (∀ rc, ∃ cfg info eps,
      topologyCallback config rc =
        some ({ config with latestConfig := some rc },
          [.Lock, .Reconfigure cfg, .UpdateRoutingInfo info, .UpdateEndpoints eps, .Unlock]) ∧
      callbackBlock config rc =
        [.Lock, .Reconfigure cfg, .UpdateRoutingInfo info, .UpdateEndpoints eps, .Unlock]) ∧
    ∃ (ids : List Nat) (cur : List AgentCall),
      ids.Nodup ∧
      (∀ t : Nat, t ∈ ids ↔ ∃ th : CallbackThread, sys.threads[t]? = some th ∧ th.pc = .done) ∧
      sys.trace = blocksOf config (snapshotsOf rcs ids) ++ cur ∧
      (sys.lock = none → cur = []) ∧
      (∀ t, sys.lock = some t →
        ∃ th, sys.threads[t]? = some th ∧ rcs[t]? = some th.rc ∧ cur ≠ [] ∧
          cur <+: callbackBlock config th.rc) := by
  constructor
  · intro rc
    obtain ⟨cfg, info, eps, h⟩ : ∃ cfg info eps,
        Agent.updateStateLocked { config with latestConfig := some rc } =
          some [.Reconfigure cfg, .UpdateRoutingInfo info, .UpdateEndpoints eps] :=
      ⟨_, _, _, updateStateLocked_eq { config with latestConfig := some rc } rc rfl⟩
    refine ⟨cfg, info, eps, ?_, ?_⟩
    · simp only [topologyCallback, h]
      rfl
    · rw [callbackBlock_eq config rc _ h]
      rfl
  · have hinv := agentInv_run config rcs sched _ sys (agentInv_init config rcs) hrun
    obtain ⟨-, -, -, -, hrcs, -, ids, hnd, hdone, htrace⟩ := hinv
    have hrc : ∀ (t : Nat) (th : CallbackThread), sys.threads[t]? = some th →
        rcs[t]? = some th.rc := by
      intro t th hth
      rw [← hrcs, List.getElem?_map, hth]
      rfl
    cases hl : sys.lock with
    | none =>
      rw [hl] at htrace
      simp only at htrace
      exact ⟨ids, [], hnd, hdone, by simp [htrace], fun _ => rfl, fun t ht => by simp at ht⟩
    | some t =>
      rw [hl] at htrace
      simp only at htrace
      obtain ⟨th, hth, hpc⟩ := htrace
      obtain ⟨calls, hcalls⟩ : ∃ calls,
          Agent.updateStateLocked { config with latestConfig := some th.rc } = some calls :=
        ⟨_, updateStateLocked_eq { config with latestConfig := some th.rc } th.rc rfl⟩
      have hblock := callbackBlock_eq config th.rc calls hcalls
      cases hp : th.pc with
      | start => simp [hp] at hpc
      | done => simp [hp] at hpc
      | locked =>
        rw [hp] at hpc
        simp only at hpc
        refine ⟨ids, [AgentCall.Lock], hnd, hdone, hpc, fun h => by simp at h, ?_⟩
        intro t' ht'
        simp only [Option.some.injEq] at ht'
        subst ht'
        refine ⟨th, hth, hrc _ _ hth, by simp, ?_⟩
        rw [hblock]
        exact ⟨calls ++ [AgentCall.Unlock], by simp⟩
      | stored =>
        rw [hp] at hpc
        simp only at hpc
        refine ⟨ids, [AgentCall.Lock], hnd, hdone, hpc.1, fun h => by simp at h, ?_⟩
        intro t' ht'
        simp only [Option.some.injEq] at ht'
        subst ht'
        refine ⟨th, hth, hrc _ _ hth, by simp, ?_⟩
        rw [hblock]
        exact ⟨calls ++ [AgentCall.Unlock], by simp⟩
      | calling rest =>
        rw [hp] at hpc
        simp only at hpc
        obtain ⟨pre, hpre, htr⟩ := hpc
        refine ⟨ids, AgentCall.Lock :: pre, hnd, hdone, htr, fun h => by simp at h, ?_⟩
        intro t' ht'
        simp only [Option.some.injEq] at ht'
        subst ht'
        refine ⟨th, hth, hrc _ _ hth, by simp, ?_⟩
        rw [hblock]
        rw [hcalls] at hpre
        simp only [Option.some.injEq] at hpre
        exact ⟨rest ++ [AgentCall.Unlock], by simp [hpre]⟩

/-- Witness for C9: the second invocation runs to its end, then the first takes the lock
and makes its first call; an invocation cannot take the lock while another holds it. -/
theorem topologyCallback_serialised_witness :
    ((AgentSys.init plainAgent [snapshotA, snapshotB]).run
        [1, 1, 1, 1, 0] = none) ∧
    (((AgentSys.init plainAgent [snapshotA, snapshotB]).run
        [1, 1, 1, 1, 1, 1, 1, 0, 0, 0, 0]).map AgentSys.trace =
      some (callbackBlock plainAgent snapshotB ++
        [ .Lock,
          .Reconfigure
            { NumPoolConnections := 1
              Clients := [("a:11210",
                { Address := "a:11210", TlsConfig := none, SelectedBucket := "default",
                  Username := "user", Password := "pass" })] } ])) ∧
    ∃ cfg info eps,
      callbackBlock plainAgent snapshotB =
        [.Lock, .Reconfigure cfg, .UpdateRoutingInfo info, .UpdateEndpoints eps, .Unlock] := by
  refine ⟨by decide, by decide, ?_⟩
  cases h : (AgentSys.init plainAgent [snapshotA, snapshotB]).run
      [1, 1, 1, 1, 1, 1, 1, 0, 0, 0, 0] with
  | none => exact absurd h (by decide)
  | some sys =>
    obtain ⟨cfg, info, eps, -, h2⟩ :=
      (topologyCallback_serialised plainAgent [snapshotA, snapshotB]
        [1, 1, 1, 1, 1, 1, 1, 0, 0, 0, 0] sys h).1 snapshotB
    exact ⟨cfg, info, eps, h2⟩

/-! ### cbsearchx -/

/-- C8: `HttpSearch.Search` called with nil options, or with options whose `Endpoint`
is empty, returns a nil result and the `InvalidArgumentError` "endpoint cannot be
empty", whose `Unwrap()` is `ErrInvalidArgument`, having reached neither `toMap` nor
`json.Marshal` nor `execute`, whatever the index name, the query and the behaviour
of `json.Marshal` and `execute`. -/
theorem search_empty_endpoint {S F R X P Q A : Type}
    (marshal : GoMap (JsonValue S F R) → Except X P)
    (execute : Q → String → String → P → Option A × Option (SearchGoError X))
    (indexName : String) (query : Q) (opts : Option (SearchOptions S F R))
    (hopts : ∀ o, opts = some o → o.Endpoint = "") :
    HttpSearch.Search marshal execute indexName query opts =
      ([], none, some (.invalidArgument ⟨"endpoint cannot be empty"⟩)) ∧
    (InvalidArgumentError.mk "endpoint cannot be empty").Unwrap =
      (SearchGoError.ErrInvalidArgument : SearchGoError X) ∧
    (InvalidArgumentError.mk "endpoint cannot be empty").Error =
      "invalid argument: endpoint cannot be empty" := by
  refine ⟨?_, rfl, by decide⟩
  cases opts with
  | none => simp [HttpSearch.Search, SearchOptions.zero]
  | some o => simp [HttpSearch.Search, hopts o rfl]

/-- Witness for C8: nil options. -/
theorem search_empty_endpoint_witness :
    (∀ o : SearchOptions Nat Nat Nat, (none : Option (SearchOptions Nat Nat Nat)) = some o →
      o.Endpoint = "") ∧
    HttpSearch.Search (S := Nat) (F := Nat) (R := Nat) (X := String) (P := String) (Q := String)
        (A := String) (fun _ => .ok "payload") (fun _ _ _ _ => (some "rows", none))
        "idx" "query" none =
      ([], none, some (.invalidArgument ⟨"endpoint cannot be empty"⟩)) :=
  ⟨fun _ h => Option.noConfusion h,
   (search_empty_endpoint (S := Nat) (F := Nat) (R := Nat) (X := String) (P := String)
      (Q := String) (A := String) (fun _ => .ok "payload")
      (fun _ _ _ _ => (some "rows", none)) "idx" "query" none (fun _ h => Option.noConfusion h)).1⟩

theorem toMapHead_ctl {S F R : Type} (opts : SearchOptions S F R) :
    GoMap.get opts.toMapHead "ctl" = none := by
  unfold SearchOptions.toMapHead
  simp only
  have hne : ∀ (m : GoMap (JsonValue S F R)) (k : String) (v : JsonValue S F R),
      k ≠ "ctl" → GoMap.get m "ctl" = none → GoMap.get (GoMap.set m k v) "ctl" = none := by
    intro m k v hk hm
    rw [GoMap.get_set_ne _ _ _ _ (fun h => hk h.symm)]
    exact hm
  have hif : ∀ (c : Prop) [Decidable c] (m : GoMap (JsonValue S F R)) (k : String)
      (v : JsonValue S F R), k ≠ "ctl" → GoMap.get m "ctl" = none →
      GoMap.get (if c then GoMap.set m k v else m) "ctl" = none := by
    intro c _ m k v hk hm
    split
    · exact hne m k v hk hm
    · exact hm
  have h1 := hif (opts.Limit > 0) [] "size" (.uint32 opts.Limit) (by decide) rfl
  have h2 := hif (opts.Skip > 0) _ "from" (.uint32 opts.Skip) (by decide) h1
  have h3 := hif (opts.Explain = true) _ "explain" (.bool opts.Explain) (by decide) h2
  have h4 := hif (opts.Fields.length > 0) _ "fields" (.strings opts.Fields) (by decide) h3
  have h5 := hif (opts.Sort_.length > 0) _ "sort" (.sorts opts.Sort_) (by decide) h4
  cases hh : opts.Highlight with
  | none =>
    cases hf : opts.Facets with
    | none => simpa using h5
    | some fs => exact hne _ _ _ (by decide) (by simpa using h5)
  | some hl =>
    have h6 := hne _ "highlight"
      (.object (GoMap.set (GoMap.set [] "style" (.string hl.Style)) "fields"
        (.strings hl.Fields))) (by decide) h5
    cases hf : opts.Facets with
    | none => simpa using h6
    | some fs => exact hne _ _ _ (by decide) (by simpa using h6)

theorem get_foldl_raw_absent {V : Type} (raw : GoMap V) (data : GoMap V) (k : String)
    (h : ∀ x, (k, x) ∉ raw) :
    GoMap.get (raw.foldl (fun data kv => GoMap.set data kv.1 kv.2) data) k = GoMap.get data k := by
  induction raw generalizing data with
  | nil => rfl
  | cons p rest ih =>
    obtain ⟨k', v'⟩ := p
    simp only [List.foldl_cons]
    rw [ih _ (fun x hx => h x (List.mem_cons_of_mem _ hx))]
    have hne : k ≠ k' := by
      intro heq
      exact h v' (by rw [heq]; exact List.mem_cons_self _ _)
    exact GoMap.get_set_ne _ _ _ _ hne

theorem get_foldl_raw_present {V : Type} (raw : GoMap V) (data : GoMap V) (k : String) (x : V)
    (h : (k, x) ∈ raw) :
    ∃ y, (k, y) ∈ raw ∧
      GoMap.get (raw.foldl (fun data kv => GoMap.set data kv.1 kv.2) data) k = some y := by
  induction raw generalizing data x with
  | nil => simp at h
  | cons p rest ih =>
    obtain ⟨k', v'⟩ := p
    simp only [List.foldl_cons]
    by_cases hrest : ∃ z, (k, z) ∈ rest
    · obtain ⟨z, hz⟩ := hrest
      obtain ⟨y, hy, hget⟩ := ih (GoMap.set data k' v') z hz
      exact ⟨y, List.mem_cons_of_mem _ hy, hget⟩
    · have habs : ∀ z, (k, z) ∉ rest := fun z hz => hrest ⟨z, hz⟩
      rw [get_foldl_raw_absent rest _ k habs]
      rcases List.mem_cons.mp h with heq | hmem
      · simp only [Prod.mk.injEq] at heq
        obtain ⟨hk, hx⟩ := heq
        subst hk
        exact ⟨v', List.mem_cons_self _ _, GoMap.get_set_self _ _ _⟩
      · exact absurd hmem (habs x)

theorem toMapTail_ctl_absent {S F R : Type} (opts : SearchOptions S F R)
    (data : GoMap (JsonValue S F R)) (ctl : Option (GoMap (JsonValue S F R)))
    (hraw : ¬ opts.rawHasCtl) :
    GoMap.get (opts.toMapTail data ctl) "ctl" =
      match ctl with
      | some c => some (.object c)
      | none => GoMap.get data "ctl" := by
  unfold SearchOptions.toMapTail
  simp only
  have hif : ∀ (c : Prop) [Decidable c] (m : GoMap (JsonValue S F R)) (k : String)
      (v : JsonValue S F R), k ≠ "ctl" →
      GoMap.get (if c then GoMap.set m k v else m) "ctl" = GoMap.get m "ctl" := by
    intro c _ m k v hk
    split
    · exact GoMap.get_set_ne _ _ _ _ (fun h => hk h.symm)
    · rfl
  rw [hif _ _ "includeLocations" _ (by decide), hif _ _ "collections" _ (by decide)]
  have hrawstep : ∀ m : GoMap (JsonValue S F R),
      GoMap.get (match opts.Raw with
        | some raw => raw.foldl (fun data kv => GoMap.set data kv.1 kv.2) m
        | none => m) "ctl" = GoMap.get m "ctl" := by
    intro m
    cases hr : opts.Raw with
    | none => rfl
    | some raw =>
      simp only
      exact get_foldl_raw_absent raw m "ctl" (fun x hx => hraw ⟨raw, x, hr, hx⟩)
  rw [hrawstep, hif _ _ "score" _ (by decide)]
  cases ctl with
  | none => rfl
  | some c => exact GoMap.get_set_self _ _ _

theorem toMapTail_ctl_present {S F R : Type} (opts : SearchOptions S F R)
    (data : GoMap (JsonValue S F R)) (ctl : Option (GoMap (JsonValue S F R)))
    (hraw : opts.rawHasCtl) :
    ∃ raw x, opts.Raw = some raw ∧ ("ctl", x) ∈ raw ∧
      GoMap.get (opts.toMapTail data ctl) "ctl" = some x := by
  obtain ⟨raw, x0, hr, hx0⟩ := hraw
  unfold SearchOptions.toMapTail
  simp only
  have hif : ∀ (c : Prop) [Decidable c] (m : GoMap (JsonValue S F R)) (k : String)
      (v : JsonValue S F R), k ≠ "ctl" →
      GoMap.get (if c then GoMap.set m k v else m) "ctl" = GoMap.get m "ctl" := by
    intro c _ m k v hk
    split
    · exact GoMap.get_set_ne _ _ _ _ (fun h => hk h.symm)
    · rfl
  rw [hif _ _ "includeLocations" _ (by decide), hif _ _ "collections" _ (by decide)]
  rw [hr]
  simp only
  obtain ⟨y, hy, hget⟩ := get_foldl_raw_present raw
    (if opts.DisableScoring = true then
      GoMap.set (match ctl with
        | some c => GoMap.set data "ctl" (.object c)
        | none => data) "score" (.string "none")
     else
      match ctl with
      | some c => GoMap.set data "ctl" (.object c)
      | none => data) "ctl" x0 hx0
  exact ⟨raw, y, rfl, hy, hget⟩

/-- C10: `SearchOptions.toMap` returns an error (always an `InvalidArgumentError`) exactly
when `ScanConsistency != 0` together with a non-nil `ConsistentWith`, or
`ScanConsistency` is neither not-set (0) nor `SearchScanConsistencyNotBounded` (1).
In every other case it returns a map and no error, and, unless `Raw` has an entry
under `ctl`: `ctl` is absent when neither option is set; it is
`{"consistency": {"level": ""}}` when `ScanConsistency` is not-bounded; it is
`{"consistency": {"level": "at_plus", "vectors": ConsistentWith}}` when
`ConsistentWith` is non-nil. When `Raw` has an entry under `ctl`, the map holds a
`Raw` value under `ctl` instead. -/
theorem toMap_consistency {S F R : Type} (opts : SearchOptions S F R) (indexName : String) :
    ((∃ e, opts.toMap indexName = .error e) ↔
      (opts.ScanConsistency ≠ 0 ∧ opts.ConsistentWith ≠ none) ∨
      (opts.ScanConsistency ≠ searchScanConsistencyNotSet ∧
        opts.ScanConsistency ≠ SearchScanConsistencyNotBounded)) ∧
    (¬ ((opts.ScanConsistency ≠ 0 ∧ opts.ConsistentWith ≠ none) ∨
        (opts.ScanConsistency ≠ searchScanConsistencyNotSet ∧
          opts.ScanConsistency ≠ SearchScanConsistencyNotBounded)) →
      ∃ data, opts.toMap indexName = .ok data ∧
        (¬ opts.rawHasCtl →
          (opts.ScanConsistency = searchScanConsistencyNotSet → opts.ConsistentWith = none →
            GoMap.get data "ctl" = none) ∧
          (opts.ScanConsistency = SearchScanConsistencyNotBounded →
            GoMap.get data "ctl" =
              some (.object [("consistency", .object [("level", .string "")])])) ∧
          (∀ cw, opts.ConsistentWith = some cw →
            GoMap.get data "ctl" =
              some (.object [("consistency",
                .object [("level", .string "at_plus"), ("vectors", .vectors cw)])]))) ∧
        (opts.rawHasCtl →
          ∃ raw x, opts.Raw = some raw ∧ ("ctl", x) ∈ raw ∧ GoMap.get data "ctl" = some x)) := by
  simp only [searchScanConsistencyNotSet, SearchScanConsistencyNotBounded]
  rcases Nat.lt_or_ge opts.ScanConsistency 2 with hlt | hge
  · cases hcw : opts.ConsistentWith with
    | none =>
      have hsc : opts.ScanConsistency = 0 ∨ opts.ScanConsistency = 1 := by
        generalize opts.ScanConsistency = n at hlt
        match n, hlt with
        | 0, _ => exact Or.inl rfl
        | 1, _ => exact Or.inr rfl
        | n + 2, h => exact absurd h (Nat.not_lt.mpr (Nat.le_add_left 2 n))
      rcases hsc with h0 | h1
      · have hmap : opts.toMap indexName = .ok (opts.toMapTail opts.toMapHead none) := by
          simp [SearchOptions.toMap, h0, hcw, searchScanConsistencyNotSet]
        refine ⟨?_, ?_⟩
        · simp [hmap, h0]
        · intro _
          refine ⟨_, hmap, ?_, ?_⟩
          · intro hraw
            have hget := toMapTail_ctl_absent opts opts.toMapHead none hraw
            simp only [toMapHead_ctl] at hget
            refine ⟨fun _ _ => hget, ?_, ?_⟩
            · intro h; rw [h0] at h; exact absurd h (by decide)
            · intro cw h; exact absurd h (by simp)
          · exact toMapTail_ctl_present opts _ _
      · have hmap : opts.toMap indexName =
            .ok (opts.toMapTail opts.toMapHead
              (some [("consistency", .object [("level", .string "")])])) := by
          simp [SearchOptions.toMap, h1, hcw, searchScanConsistencyNotSet,
            SearchScanConsistencyNotBounded, GoMap.set]
        refine ⟨?_, ?_⟩
        · simp [hmap, h1]
        · intro _
          refine ⟨_, hmap, ?_, ?_⟩
          · intro hraw
            have hget := toMapTail_ctl_absent opts opts.toMapHead
              (some [("consistency", .object [("level", .string "")])]) hraw
            simp only at hget
            refine ⟨?_, fun _ => hget, ?_⟩
            · intro h; rw [h1] at h; exact absurd h (by decide)
            · intro cw h; exact absurd h (by simp)
          · exact toMapTail_ctl_present opts _ _
    | some cw =>
      by_cases h0 : opts.ScanConsistency = 0
      · have hmap : opts.toMap indexName =
            .ok (opts.toMapTail opts.toMapHead
              (some [("consistency",
                .object [("level", .string "at_plus"), ("vectors", .vectors cw)])])) := by
          simp [SearchOptions.toMap, h0, hcw, searchScanConsistencyNotSet, GoMap.set]
        refine ⟨?_, ?_⟩
        · simp [hmap, h0]
        · intro _
          refine ⟨_, hmap, ?_, ?_⟩
          · intro hraw
            have hget := toMapTail_ctl_absent opts opts.toMapHead
              (some [("consistency",
                .object [("level", .string "at_plus"), ("vectors", .vectors cw)])]) hraw
            simp only at hget
            refine ⟨?_, ?_, ?_⟩
            · intro _ h; exact absurd h (by simp)
            · intro h; rw [h0] at h; exact absurd h (by decide)
            · intro cw' h
              simp only [Option.some.injEq] at h
              subst h
              exact hget
          · exact toMapTail_ctl_present opts _ _
      · have hmap : opts.toMap indexName =
            .error ⟨"ScanConsistency and ConsistentWith must be used exclusively"⟩ := by
          simp [SearchOptions.toMap, h0, hcw]
        refine ⟨?_, ?_⟩
        · simp [hmap, h0]
        · intro hno
          exact absurd (Or.inl ⟨h0, by simp⟩) hno
  · have h0 : opts.ScanConsistency ≠ 0 := by
      intro h; rw [h] at hge; exact absurd hge (by decide)
    have h1 : opts.ScanConsistency ≠ 1 := by
      intro h; rw [h] at hge; exact absurd hge (by decide)
    have herr : ∃ e, opts.toMap indexName = .error e := by
      cases hcw : opts.ConsistentWith with
      | none =>
        exact ⟨⟨"unexpected consistency option"⟩, by
          simp [SearchOptions.toMap, h0, h1, hcw, searchScanConsistencyNotSet,
            SearchScanConsistencyNotBounded]⟩
      | some cw =>
        exact ⟨⟨"ScanConsistency and ConsistentWith must be used exclusively"⟩, by
          simp [SearchOptions.toMap, h0, hcw]⟩
    refine ⟨?_, ?_⟩
    · exact ⟨fun _ => Or.inr ⟨h0, h1⟩, fun _ => herr⟩
    · intro hno
      exact absurd (Or.inr ⟨h0, h1⟩) hno

/-- Witness for C10: not-bounded consistency yields `ctl.consistency.level = ""`. -/
theorem toMap_consistency_witness :
    ∃ data, notBoundedOptions.toMap "idx" = .ok data ∧
      GoMap.get data "ctl" =
        some (.object [("consistency", .object [("level", .string "")])]) := by
  obtain ⟨data, hdata, habsent, -⟩ :=
    (toMap_consistency notBoundedOptions "idx").2 (by decide)
  refine ⟨data, hdata, (habsent ?_).2.1 rfl⟩
  rintro ⟨raw, x, hraw, -⟩
  exact Option.noConfusion hraw

end Gocbcorex
